import Mathlib

/-!
Shallow embedding of the graph-execution core of temoto_action_engine.

Sources embedded directly:
  * src/src/umrf.cpp            — the `Umrf` node descriptor and its operations
  * src/src/action_executor.cpp — the `ActionExecutor` scheduler
  * src/include/temoto_action_engine/action_base.h — `ActionBase::executeActionWrapped`

Parts of the repository that the executor uses but whose sources are not in the
source tree (`UmrfGraph`, `ActionHandle`, `ActionParameters`, the `Relation`
comparison operator) are modelled from the specification; each such definition
carries a doc comment starting with `Modelled from the spec:`.

C++ in-place mutation is rendered as explicit state passing: an operation that
can throw returns the error (if any) together with the post state, because a
C++ exception does not undo mutations already performed.
-/

set_option maxHeartbeats 1000000

namespace Temoto

/-- Error stack modelling `TemotoErrorStack`: a stack of message frames.
`CREATE_TEMOTO_ERROR_STACK(msg)` makes a one-frame stack and
`FORWARD_TEMOTO_ERROR_STACK(e)` prepends a frame recording the forwarding layer. -/
structure TemotoErrorStack where
  frames : List String
deriving DecidableEq, Repr

/-- `CREATE_TEMOTO_ERROR_STACK(msg)`. -/
def createError (msg : String) : TemotoErrorStack := ⟨[msg]⟩

/-- `FORWARD_TEMOTO_ERROR_STACK(e)`: prepend a frame identifying the re-raising layer. -/
def forwardError (e : TemotoErrorStack) : TemotoErrorStack := ⟨"forwarded" :: e.frames⟩

/-- Modelled from the spec: `ActionParameters::ParameterContainer`
(action_parameters sources are absent). A parameter is the tuple
`(name, type, required, updatable, allowed_values, data)`; the opaque data blob
is modelled as a list of strings, "has data" iff it is non-empty. -/
structure ParameterContainer where
  name : String
  type : String
  required : Bool
  updatable : Bool
  allowed_data : List String
  data : List String
deriving DecidableEq, Repr

def ParameterContainer.getDataSize (p : ParameterContainer) : Nat := p.data.length

/-- Modelled from the spec: structural equality of parameters — everything except `data`. -/
def ParameterContainer.isEqualNoData (p q : ParameterContainer) : Bool :=
  p.name == q.name && p.type == q.type && p.required == q.required &&
  p.updatable == q.updatable && p.allowed_data == q.allowed_data

/-- Modelled from the spec: structural-no-update equality — everything except
`data` and `updatable`. -/
def ParameterContainer.isEqualNoDataNoUpdate (p q : ParameterContainer) : Bool :=
  p.name == q.name && p.type == q.type && p.required == q.required &&
  p.allowed_data == q.allowed_data

/-- Modelled from the spec: `ActionParameters`, a bag of parameters keyed by name. -/
abbrev ActionParameters := List ParameterContainer

/-- Modelled from the spec: parameters compare by `name` only (keyset semantics);
lookup finds the (unique, by the bag invariant) parameter of a given name. -/
def findByName : ActionParameters → String → Option ParameterContainer
  | [], _ => none
  | p :: rest, n => if p.name = n then some p else findByName rest n

def hasParameterB (bag : ActionParameters) (n : String) : Bool :=
  (findByName bag n).isSome

/-- Modelled from the spec: `set_parameter(p)` — upsert by name. -/
def setParameter : ActionParameters → ParameterContainer → ActionParameters
  | [], p => [p]
  | q :: rest, p => if q.name = p.name then p :: rest else q :: setParameter rest p

/-- Modelled from the spec: `copy_parameters(other)` — for each parameter in
`other` present here (by name), overwrite the data blob only. -/
def copyParameters (bag other : ActionParameters) : ActionParameters :=
  bag.map (fun p =>
    match findByName other p.name with
    | some q => { p with data := q.data }
    | none => p)

def getParameterCount (bag : ActionParameters) : Nat := bag.length

/-- Modelled from the spec: `Umrf::Relation` — a pair `(name, suffix)`
identifying another node by full name, carrying the `required` flag and the
runtime `received` marker (umrf.h is absent). -/
structure Relation where
  name : String
  suffix : Nat
  required : Bool
  received : Bool
deriving DecidableEq, Repr

/-- The identifying key of a relation: the `(name, suffix)` pair. -/
def relKey (r : Relation) : String × Nat := (r.name, r.suffix)

/-- Modelled from the spec: `Relation::operator==` compares the identifying
pair `(name, suffix)` only — the runtime flags do not take part (this is what
`std::find` over relation vectors uses). -/
def relEqb (a b : Relation) : Bool := a.name == b.name && a.suffix == b.suffix

/-- The full name a relation refers to: `name + "_" + suffix`. -/
def relFullName (r : Relation) : String := r.name ++ "_" ++ toString r.suffix

/-- The UMRF node descriptor (umrf.cpp / umrf.h).  The `notation_` field is
rendered as `ntn`. -/
structure Umrf where
  name : String
  description : String
  package_name : String
  suffix : Nat
  ntn : String
  effect : String
  library_path : String
  parents : List Relation
  children : List Relation
  id : Nat
  full_name : String
  input_parameters : ActionParameters
  output_parameters : ActionParameters
deriving DecidableEq, Repr

def Umrf.getFullName (u : Umrf) : String := u.full_name

/-- `Umrf::isUmrfCorrect`: name and library path are non-empty. -/
def Umrf.isUmrfCorrect (u : Umrf) : Bool :=
  !(u.name.isEmpty) && !(u.library_path.isEmpty)

/-- `Umrf::inputParametersReceived`: every required input parameter has data. -/
def Umrf.inputParametersReceived (u : Umrf) : Bool :=
  u.input_parameters.all (fun p => if p.required then !(p.getDataSize == 0) else true)

/-- `Umrf::copyInputParameters`: copy incoming data into the input bag
(the C++ method also returns `inputParametersReceived()`, which the caller in
`notifyFinished` ignores). -/
def Umrf.copyInputParameters (u : Umrf) (ps : ActionParameters) : Umrf :=
  { u with input_parameters := copyParameters u.input_parameters ps }

/-- `Umrf::requiredParentsFinished`: no parent relation has `required` set but
`received` unset. -/
def Umrf.requiredParentsFinished (u : Umrf) : Bool :=
  u.parents.all (fun p => if p.required && !p.received then false else true)

/-- `Umrf::asRelation`: `Relation(getName(), getSuffix())`; the runtime flags
take the default-constructed values (modelled from the spec as unset). -/
def Umrf.asRelation (u : Umrf) : Relation := ⟨u.name, u.suffix, false, false⟩

/-- Helper for `Umrf::setParentReceived`: set `received` on the first relation
in the list equal (by `operator==`) to the given one; `none` when there is no
such relation. -/
def markFirstReceived : List Relation → Relation → Option (List Relation)
  | [], _ => none
  | p :: rest, r =>
    if relEqb p r then some ({ p with received := true } :: rest)
    else (markFirstReceived rest r).map (p :: ·)

/-- `Umrf::setParentReceived`: `std::find` the parent; mark it received, or
throw "The parent does not exist" leaving the node unchanged. -/
def Umrf.setParentReceived (u : Umrf) (r : Relation) : Except TemotoErrorStack Umrf :=
  match markFirstReceived u.parents r with
  | some ps => .ok { u with parents := ps }
  | none => .error (createError "The parent does not exist")

/-- Loop of `Umrf::updateInputParams` over the incoming parameters: look the
incoming parameter up by name; skip silently when absent; skip silently when
the local parameter is not updatable; otherwise upsert the incoming parameter
and record that an update happened. -/
def updateParamsLoop : List ParameterContainer → ActionParameters → Bool →
    Bool × ActionParameters
  | [], bag, upd => (upd, bag)
  | p :: rest, bag, upd =>
    match findByName bag p.name with
    | none => updateParamsLoop rest bag upd
    | some loc =>
      if loc.updatable then updateParamsLoop rest (setParameter bag p) true
      else updateParamsLoop rest bag upd

/-- `Umrf::updateInputParams`: returns whether any parameter was updated,
together with the updated node. -/
def Umrf.updateInputParams (u : Umrf) (umrf_in : Umrf) : Bool × Umrf :=
  let r := updateParamsLoop umrf_in.input_parameters u.input_parameters false
  (r.1, { u with input_parameters := r.2 })

/-- `Umrf::isEqual`, general-parameter block: name, suffix, notation, effect. -/
def Umrf.generalEq (a b : Umrf) : Bool :=
  a.name == b.name && a.suffix == b.suffix && a.ntn == b.ntn && a.effect == b.effect

/-- `std::find` of a relation in a relation vector (by `operator==`). -/
def relFound (l : List Relation) (r : Relation) : Bool := l.any (fun x => relEqb x r)

/-- `Umrf::isEqual`, graph-connection block: parent/children sizes match and
every incoming relation is found among ours. -/
def Umrf.connEq (a b : Umrf) : Bool :=
  a.children.length == b.children.length && a.parents.length == b.parents.length &&
  b.parents.all (relFound a.parents) && b.children.all (relFound a.children)

/-- `Umrf::isEqual`, per-input-parameter check: the incoming bag must contain a
parameter of the same name, equal under `isEqualNoData` when updatability is
controlled and under `isEqualNoDataNoUpdate` otherwise. -/
def paramCheck (check_updatable : Bool) (bag_in : ActionParameters)
    (p : ParameterContainer) : Bool :=
  match findByName bag_in p.name with
  | some q => if check_updatable then p.isEqualNoData q else p.isEqualNoDataNoUpdate q
  | none => false

/-- `Umrf::isEqual`, per-output-parameter check (always `isEqualNoData`). -/
def outParamCheck (bag_in : ActionParameters) (p : ParameterContainer) : Bool :=
  match findByName bag_in p.name with
  | some q => p.isEqualNoData q
  | none => false

/-- `Umrf::isEqual`, parameter block: counts match and each of our parameters
checks against the incoming bag. -/
def Umrf.paramsEq (check_updatable : Bool) (a b : Umrf) : Bool :=
  getParameterCount a.input_parameters == getParameterCount b.input_parameters &&
  getParameterCount a.output_parameters == getParameterCount b.output_parameters &&
  a.input_parameters.all (paramCheck check_updatable b.input_parameters) &&
  a.output_parameters.all (outParamCheck b.output_parameters)

/-- `Umrf::isEqual(umrf_in, check_updatable)`. -/
def Umrf.isEqual (a b : Umrf) (check_updatable : Bool) : Bool :=
  a.generalEq b && a.connEq b && Umrf.paramsEq check_updatable a b

/-! ### Association-list maps

`std::map` is rendered as an association list with unique keys.  `aInsert`
follows `std::map::insert` semantics: an existing key is left untouched. -/

def aLookup {κ V : Type} [DecidableEq κ] : List (κ × V) → κ → Option V
  | [], _ => none
  | (k, v) :: rest, q => if q = k then some v else aLookup rest q

/-- Upsert: replace the value at the key, or append the binding. -/
def aSet {κ V : Type} [DecidableEq κ] : List (κ × V) → κ → V → List (κ × V)
  | [], k, v => [(k, v)]
  | (k0, v0) :: rest, k, v =>
    if k = k0 then (k0, v) :: rest else (k0, v0) :: aSet rest k v

def aErase {κ V : Type} [DecidableEq κ] : List (κ × V) → κ → List (κ × V)
  | [], _ => []
  | (k0, v0) :: rest, k => if k = k0 then rest else (k0, v0) :: aErase rest k

/-- `std::map::insert`: no effect when the key is already present. -/
def aInsert {κ V : Type} [DecidableEq κ] (m : List (κ × V)) (k : κ) (v : V) :
    List (κ × V) :=
  match aLookup m k with
  | some _ => m
  | none => m ++ [(k, v)]

/-- Ranged `std::map::insert`: insert the bindings one by one, keeping existing keys. -/
def aInsertAll {κ V : Type} [DecidableEq κ] (m : List (κ × V)) :
    List (κ × V) → List (κ × V)
  | [] => m
  | (k, v) :: rest => aInsertAll (aInsert m k v) rest

/-- `std::set<unsigned int>::insert`: keep the list strictly sorted without duplicates. -/
def insertSorted (a : Nat) : List Nat → List Nat
  | [] => [a]
  | b :: rest =>
    if a < b then a :: b :: rest
    else if a = b then b :: rest
    else b :: insertSorted a rest

/-! ### UmrfGraph (modelled from the spec — umrf_graph.cpp is absent) -/

/-- Per-node runtime state, stored on the graph. -/
inductive NodeState
  | NOT_STARTED | ACTIVE | FINISHED | ERROR
deriving DecidableEq, Repr

/-- Graph-level state machine. -/
inductive GraphState
  | UNINITIALIZED | INITIALIZED | ACTIVE | FINISHED | ERROR
deriving DecidableEq, Repr

def NodeState.isFinished : NodeState → Bool
  | .FINISHED => true
  | _ => false

/-- Modelled from the spec: `UmrfGraph` — the node collection, the per-node
runtime states keyed by id, and the graph-level state. -/
structure UmrfGraph where
  graph_name : String
  umrfs : List Umrf
  node_states : List (Nat × NodeState)
  graph_state : GraphState
deriving DecidableEq, Repr

/-- Modelled from the spec: `node_of(id)` — the node with the given id. -/
def UmrfGraph.getUmrfOf (g : UmrfGraph) (id : Nat) : Option Umrf :=
  g.umrfs.find? (fun u => u.id == id)

/-- Replace the node with the given id (helper for mutable node access). -/
def replaceById : List Umrf → Nat → Umrf → List Umrf
  | [], _, _ => []
  | v :: rest, id, u => if v.id == id then u :: rest else v :: replaceById rest id u

def UmrfGraph.setUmrf (g : UmrfGraph) (id : Nat) (u : Umrf) : UmrfGraph :=
  { g with umrfs := replaceById g.umrfs id u }

def UmrfGraph.nodeState (g : UmrfGraph) (id : Nat) : Option NodeState :=
  aLookup g.node_states id

/-- Modelled from the spec: `set_node_active(id)` — the node becomes `ACTIVE`
and the graph state becomes `ACTIVE`. -/
def UmrfGraph.setNodeActive (g : UmrfGraph) (id : Nat) : UmrfGraph :=
  { g with node_states := aSet g.node_states id .ACTIVE, graph_state := .ACTIVE }

/-- Modelled from the spec: `set_node_finished(id)`. -/
def UmrfGraph.setNodeFinished (g : UmrfGraph) (id : Nat) : UmrfGraph :=
  { g with node_states := aSet g.node_states id .FINISHED }

/-- Modelled from the spec: `set_node_error(id)`. -/
def UmrfGraph.setNodeError (g : UmrfGraph) (id : Nat) : UmrfGraph :=
  { g with node_states := aSet g.node_states id .ERROR }

/-- Modelled from the spec: `check_state()` — the authoritative graph-state
read, derived from the aggregated node states: an uninitialized graph stays
uninitialized, a graph whose nodes are all `FINISHED` is `FINISHED`, otherwise
the stored state stands. -/
def UmrfGraph.checkState (g : UmrfGraph) : GraphState :=
  if g.graph_state = .UNINITIALIZED then .UNINITIALIZED
  else if g.node_states.all (fun e => e.2.isFinished) then .FINISHED
  else g.graph_state

/-- Modelled from the spec: `part_of_graph(id)`. -/
def UmrfGraph.partOfGraphId (g : UmrfGraph) (id : Nat) : Bool :=
  g.umrfs.any (fun u => u.id == id)

/-- Modelled from the spec: `part_of_graph(full_name)`. -/
def UmrfGraph.partOfGraphName (g : UmrfGraph) (fn : String) : Bool :=
  g.umrfs.any (fun u => u.getFullName == fn)

/-- Modelled from the spec: `children_of(id)` — ids of the nodes whose parent
list references this id's full name. -/
def UmrfGraph.getChildrenOf (g : UmrfGraph) (id : Nat) : List Nat :=
  match g.getUmrfOf id with
  | none => []
  | some p =>
    (g.umrfs.filter (fun n => n.parents.any (fun r => relFullName r == p.getFullName))).map
      (fun n => n.id)

/-- Modelled from the spec: `roots()` — ids of the nodes with no parents. -/
def UmrfGraph.getRootNodes (g : UmrfGraph) : List Nat :=
  (g.umrfs.filter (fun n => n.parents.isEmpty)).map (fun n => n.id)

def listNodupB {α : Type} [DecidableEq α] : List α → Bool
  | [] => true
  | a :: rest => !(rest.contains a) && listNodupB rest

def findByFullName (umrfs : List Umrf) (fn : String) : Option Umrf :=
  umrfs.find? (fun u => u.getFullName == fn)

/-- Bounded reachability along child relations, taking at least one edge;
`reachableIn umrfs k src dst` holds when `dst` is reachable from `src` in at
most `k` edges. -/
def reachableIn (umrfs : List Umrf) : Nat → String → String → Bool
  | 0, _, _ => false
  | k + 1, src, dst =>
    match findByFullName umrfs src with
    | none => false
    | some u =>
      u.children.any (fun c => relFullName c == dst || reachableIn umrfs k (relFullName c) dst)

/-- A cycle (self-loops included) exists iff some node reaches itself. -/
def hasCycleB (umrfs : List Umrf) : Bool :=
  umrfs.any (fun u => reachableIn umrfs (umrfs.length + 1) u.getFullName u.getFullName)

/-- Modelled from the spec: every parent/child reference names an existing node. -/
def refsResolvable (umrfs : List Umrf) : Bool :=
  umrfs.all (fun u =>
    u.parents.all (fun r => umrfs.any (fun v => v.getFullName == relFullName r)) &&
    u.children.all (fun r => umrfs.any (fun v => v.getFullName == relFullName r)))

/-- Modelled from the spec: graph construction rejects duplicate full names,
unresolvable references, self-loops and cycles. -/
def graphValid (umrfs : List Umrf) : Bool :=
  listNodupB (umrfs.map Umrf.getFullName) && refsResolvable umrfs && !hasCycleB umrfs

/-- Modelled from the spec: the `UmrfGraph(name, umrfs)` constructor — the graph
is `INITIALIZED` when the node set is valid, `UNINITIALIZED` otherwise. -/
def UmrfGraph.construct (nameStr : String) (umrfs : List Umrf) : UmrfGraph :=
  { graph_name := nameStr
    umrfs := umrfs
    node_states := umrfs.map (fun u => (u.id, NodeState.NOT_STARTED))
    graph_state := if graphValid umrfs then .INITIALIZED else .UNINITIALIZED }

/-- Modelled from the spec: `add_node` — fails if the full name is already
present, otherwise inserts the node. -/
def UmrfGraph.addUmrf (g : UmrfGraph) (u : Umrf) : Except TemotoErrorStack UmrfGraph :=
  if g.partOfGraphName u.getFullName then
    .error (createError "Cannot add UMRF because it is already part of the graph")
  else
    .ok { g with
      umrfs := g.umrfs ++ [u]
      node_states := g.node_states ++ [(u.id, .NOT_STARTED)] }

/-- Drop every relation referring to the given full name. -/
def pruneRelations (fn : String) (u : Umrf) : Umrf :=
  { u with
    parents := u.parents.filter (fun r => !(relFullName r == fn))
    children := u.children.filter (fun r => !(relFullName r == fn)) }

/-- Modelled from the spec: `remove_node` — removes the node, prunes dangling
relations from the neighbours, and returns the deposed id. -/
def UmrfGraph.removeUmrf (g : UmrfGraph) (u : Umrf) :
    Except TemotoErrorStack (Nat × UmrfGraph) :=
  match findByFullName g.umrfs u.getFullName with
  | none => .error (createError "Cannot remove UMRF because it is not part of the graph")
  | some v =>
    .ok (v.id, { g with
      umrfs := (g.umrfs.filter (fun w => !(w.getFullName == u.getFullName))).map
        (pruneRelations u.getFullName)
      node_states := aErase g.node_states v.id })

/-- Modelled from the spec: `add_child(node_descriptor)` — append the listed
child relations to the named node and the matching parent relation to each
referenced child. -/
def UmrfGraph.addChild (g : UmrfGraph) (u : Umrf) : UmrfGraph :=
  { g with umrfs := g.umrfs.map (fun n =>
      if n.getFullName == u.getFullName then { n with children := n.children ++ u.children }
      else
        match u.children.find? (fun c => relFullName c == n.getFullName) with
        | some c => { n with parents := n.parents ++ [⟨u.name, u.suffix, c.required, false⟩] }
        | none => n) }

/-- Modelled from the spec: `remove_child(node_descriptor)` — remove the listed
child relations from the named node and the matching parent relation from each
referenced child. -/
def UmrfGraph.removeChild (g : UmrfGraph) (u : Umrf) : UmrfGraph :=
  { g with umrfs := g.umrfs.map (fun n =>
      if n.getFullName == u.getFullName then
        { n with children := n.children.filter (fun c => !(u.children.any (relEqb c))) }
      else if u.children.any (fun c => relFullName c == n.getFullName) then
        { n with parents := n.parents.filter (fun r => !(relEqb r ⟨u.name, u.suffix, true, false⟩)) }
      else n) }

/-! ### ActionHandle (modelled from the spec — action_handle.cpp is absent) -/

inductive HandleState
  | UNINITIALIZED | INITIALIZED | RUNNING | FINISHED | ERROR
deriving DecidableEq, Repr

/-- Modelled from the spec: the runtime envelope around one instantiated
action.  `future_ready`/`future_msg` model the completion channel and
`cleared` records that `clearAction` ran. -/
structure ActionHandle where
  umrf : Umrf
  state : HandleState
  future_ready : Bool
  future_msg : String
  cleared : Bool
deriving DecidableEq, Repr

/-- Modelled from the spec: a freshly constructed handle reaches `INITIALIZED`
iff the node is correct, its required parents have all fired, and its required
input parameters have data; otherwise it stays `UNINITIALIZED`.  This is the
per-child readiness filter of §4.3.4: `notifyFinished` hands every child to
`executeById`, and a child whose predicate fails is skipped there. -/
def handleInitPred (u : Umrf) : Bool :=
  u.isUmrfCorrect && u.requiredParentsFinished && u.inputParametersReceived

def ActionHandle.make (u : Umrf) : ActionHandle :=
  { umrf := u
    state := if handleInitPred u then .INITIALIZED else .UNINITIALIZED
    future_ready := false
    future_msg := ""
    cleared := false }

def ActionHandle.getHandleId (h : ActionHandle) : Nat := h.umrf.id

def ActionHandle.getEffect (h : ActionHandle) : String := h.umrf.effect

abbrev HandleMap := List (Nat × ActionHandle)

/-! ### ActionExecutor state and `executeById` (action_executor.cpp) -/

/-- Outcomes of the external collaborators: whether the loader can instantiate
the action of a node id and whether starting its worker succeeds.  These are
the only effects of `instantiateAction` / `executeActionThread` visible to the
executor. -/
structure ExecEnv where
  instOk : Nat → Bool
  execOk : Nat → Bool

structure ExecutorState where
  handles : HandleMap
  graphs : List (String × UmrfGraph)
  id_count : Nat
deriving DecidableEq, Repr

inductive EPhase
  | creation | instantiation | execution
deriving DecidableEq, Repr

/-- Result of `ActionExecutor::executeById`: the error (if one was re-raised),
the phase that threw, the post handle registry and graph, the rollback set, and
the ids whose handles had `clearAction` invoked. -/
structure EIdResult where
  err : Option TemotoErrorStack
  failPhase : Option EPhase
  handles : HandleMap
  graph : UmrfGraph
  rollback : List Nat
  cleared : List Nat
deriving Repr, DecidableEq

/-- Outcome of the handle-creation phase of `executeById`. -/
inductive CreateRes
  | ok (tmp : HandleMap) (init_ids : List Nat)
  | missingUmrf (e : TemotoErrorStack) (init_ids : List Nat)
  | notInitialized (e : TemotoErrorStack) (tmp : HandleMap) (init_ids : List Nat)
deriving Repr

/-- Handle-creation loop of `executeById`: construct a handle per id; a handle
that is not `INITIALIZED` aborts when `initialized_required` holds and is
skipped otherwise; initialized handles are buffered and their ids recorded
(`init_action_ids` and `action_rollback_list` receive the same ids, so the
rollback set equals the initialized-id set).  A missing id makes
`getUmrfOf` throw `std::out_of_range`, which `executeById` does not catch. -/
def createHandlesGo (g : UmrfGraph) (init_req : Bool) :
    List Nat → HandleMap → List Nat → CreateRes
  | [], tmp, init_ids => .ok tmp init_ids
  | id :: rest, tmp, init_ids =>
    match g.getUmrfOf id with
    | none => .missingUmrf (createError "out_of_range") init_ids
    | some u =>
      let ah := ActionHandle.make u
      if ah.state = .INITIALIZED then
        createHandlesGo g init_req rest (aInsert tmp ah.getHandleId ah)
          (insertSorted ah.getHandleId init_ids)
      else if init_req then
        .notInitialized
          (createError "Cannot execute the actions because all actions were not fully initialized.")
          tmp init_ids
      else createHandlesGo g init_req rest tmp init_ids

def createHandles (g : UmrfGraph) (init_req : Bool) (ids : List Nat) : CreateRes :=
  createHandlesGo g init_req ids [] []

/-- Instantiation loop of `executeById`: `instantiateAction` per id; on
failure the node is marked `ERROR` and the error is thrown. -/
def instantiateLoop (env : ExecEnv) : List Nat → UmrfGraph →
    Option TemotoErrorStack × UmrfGraph
  | [], g => (none, g)
  | id :: rest, g =>
    if env.instOk id then instantiateLoop env rest g
    else (some (createError "Cannot initialize the actions"), g.setNodeError id)

/-- Execution loop of `executeById`: `executeActionThread` per id (the handle
becomes `RUNNING`) then `setNodeActive`; on failure the node is marked `ERROR`
and the error is thrown. -/
def executeLoop (env : ExecEnv) : List Nat → HandleMap → UmrfGraph →
    Option TemotoErrorStack × HandleMap × UmrfGraph
  | [], h, g => (none, h, g)
  | id :: rest, h, g =>
    if env.execOk id then
      let h1 := match aLookup h id with
        | some ah => aSet h id { ah with state := .RUNNING }
        | none => h
      executeLoop env rest h1 (g.setNodeActive id)
    else (some (createError "Cannot execute the actions"), h, g.setNodeError id)

/-- Rollback loop of `executeById`: for every id in the rollback set,
`clearAction` on its handle, erase it from the registry, and `set_node_finished`
on the graph.  `named_action_handles_.at(id)` on an absent id throws
`std::out_of_range`, aborting the loop (the Bool records completion). -/
def rollbackLoop : List Nat → HandleMap → UmrfGraph → List Nat →
    Bool × HandleMap × UmrfGraph × List Nat
  | [], h, g, cl => (true, h, g, cl)
  | id :: rest, h, g, cl =>
    match aLookup h id with
    | some _ => rollbackLoop rest (aErase h id) (g.setNodeFinished id) (cl ++ [id])
    | none => (false, h, g, cl)

/-- Outcome dispatch for the execution phase of `executeById`: on failure the
rollback loop runs; on success the handles and graph stand. -/
def eidExecDispatch (init_ids : List Nat) :
    Option TemotoErrorStack × HandleMap × UmrfGraph → EIdResult
  | (some e, h2, g2) =>
    let r := rollbackLoop init_ids h2 g2 []
    { err := some (if r.1 then forwardError e else createError "out_of_range")
      failPhase := some .execution, handles := r.2.1, graph := r.2.2.1
      rollback := init_ids, cleared := r.2.2.2 }
  | (none, h2, g2) =>
    { err := none, failPhase := none, handles := h2, graph := g2
      rollback := init_ids, cleared := [] }

/-- Execution phase of `executeById` (after instantiation succeeded):
`executeActionThread` plus `setNodeActive` per id, rollback on failure. -/
def eidExecPhase (env : ExecEnv) (handles1 : HandleMap) (g1 : UmrfGraph)
    (init_ids : List Nat) : EIdResult :=
  eidExecDispatch init_ids (executeLoop env init_ids handles1 g1)

/-- Outcome dispatch for the instantiation phase of `executeById`: on failure
the rollback loop runs; on success the execution phase follows. -/
def eidInstDispatch (env : ExecEnv) (handles1 : HandleMap) (init_ids : List Nat) :
    Option TemotoErrorStack × UmrfGraph → EIdResult
  | (some e, g1) =>
    let r := rollbackLoop init_ids handles1 g1 []
    { err := some (if r.1 then forwardError e else createError "out_of_range")
      failPhase := some .instantiation, handles := r.2.1, graph := r.2.2.1
      rollback := init_ids, cleared := r.2.2.2 }
  | (none, g1) => eidExecPhase env handles1 g1 init_ids

/-- Instantiation phase of `executeById` (after the bulk insert of the buffered
handles): `instantiateAction` per id, rollback on failure, then the execution
phase. -/
def eidInstPhase (env : ExecEnv) (g : UmrfGraph) (handles1 : HandleMap)
    (init_ids : List Nat) : EIdResult :=
  eidInstDispatch env handles1 init_ids (instantiateLoop env init_ids g)

/-- Dispatch on the outcome of the handle-creation phase of `executeById`. -/
def eidAfterCreate (env : ExecEnv) (g : UmrfGraph) (handles : HandleMap) :
    CreateRes → EIdResult
  | .missingUmrf e rb =>
    -- std::out_of_range escapes the catch(TemotoErrorStack): no rollback runs.
    { err := some e, failPhase := some .creation, handles := handles, graph := g
      rollback := rb, cleared := [] }
  | .notInitialized e _tmp rb =>
    -- thrown before the bulk insert: the rollback loop runs against the
    -- registry without the buffered handles.
    let r := rollbackLoop rb handles g []
    { err := some (if r.1 then forwardError e else createError "out_of_range")
      failPhase := some .creation, handles := r.2.1, graph := r.2.2.1
      rollback := rb, cleared := r.2.2.2 }
  | .ok tmp init_ids => eidInstPhase env g (aInsertAll handles tmp) init_ids

/-- `ActionExecutor::executeById(ids, ugh, initialized_required)`: the
transactional four-phase activation primitive. -/
def executeById (env : ExecEnv) (ids : List Nat) (g : UmrfGraph) (handles : HandleMap)
    (init_req : Bool) : EIdResult :=
  eidAfterCreate env g handles (createHandles g init_req ids)

/-! ### `ActionExecutor::notifyFinished` -/

/-- Child-update step of `notifyFinished` for one child id: copy the parent
outputs into the child's inputs, then mark the parent relation received.  A
throw from `setParentReceived` leaves the parameter copy in place (in-place
mutation). -/
def updateChild (g : UmrfGraph) (parent_id c : Nat) (ps : ActionParameters) :
    Option TemotoErrorStack × UmrfGraph :=
  match g.getUmrfOf c with
  | none => (some (createError "out_of_range"), g)
  | some u =>
    match g.getUmrfOf parent_id with
    | none => (some (createError "out_of_range"), g.setUmrf c (u.copyInputParameters ps))
    | some p =>
      match (u.copyInputParameters ps).setParentReceived p.asRelation with
      | .ok u2 => (none, g.setUmrf c u2)
      | .error e => (some e, g.setUmrf c (u.copyInputParameters ps))

/-- Parameter-transfer loop of `notifyFinished` over the children of the parent. -/
def updateChildren (g : UmrfGraph) (parent_id : Nat) (ps : ActionParameters) :
    List Nat → Option TemotoErrorStack × UmrfGraph
  | [] => (none, g)
  | c :: rest =>
    match updateChild g parent_id c ps with
    | (some e, g1) => (some e, g1)
    | (none, g1) => updateChildren g1 parent_id ps rest

/-- Per-graph body of `notifyFinished`: skip the graph unless it is `ACTIVE`
and the parent has children there; otherwise transfer the parameters to every
child and hand all children to `executeById` (the default
`initialized_required = false`). -/
def processGraphEntry (env : ExecEnv) (parent_id : Nat) (ps : ActionParameters)
    (handles : HandleMap) (e : String × UmrfGraph) :
    Option TemotoErrorStack × HandleMap × (String × UmrfGraph) :=
  let g := e.2
  if g.checkState ≠ .ACTIVE ∨ (g.getChildrenOf parent_id).isEmpty then
    (none, handles, e)
  else
    match updateChildren g parent_id ps (g.getChildrenOf parent_id) with
    | (some er, g1) => (some er, handles, (e.1, g1))
    | (none, g1) =>
      let r := executeById env (g1.getChildrenOf parent_id) g1 handles false
      (r.err, r.handles, (e.1, r.graph))

/-- Graph loop of `notifyFinished`: process the graphs in order; an error
aborts the loop (remaining graphs untouched) and is re-raised. -/
def notifyLoop (env : ExecEnv) (parent_id : Nat) (ps : ActionParameters) :
    HandleMap → List (String × UmrfGraph) →
    Option TemotoErrorStack × HandleMap × List (String × UmrfGraph)
  | h, [] => (none, h, [])
  | h, e :: rest =>
    match processGraphEntry env parent_id ps h e with
    | (some er, h1, e1) => (some er, h1, e1 :: rest)
    | (none, h1, e1) =>
      let r := notifyLoop env parent_id ps h1 rest
      (r.1, r.2.1, e1 :: r.2.2)

/-- `ActionExecutor::notifyFinished(parent_action_id, parent_action_parameters)`. -/
def notifyFinished (env : ExecEnv) (st : ExecutorState) (parent_id : Nat)
    (ps : ActionParameters) : Option TemotoErrorStack × ExecutorState :=
  let r := notifyLoop env parent_id ps st.handles st.graphs
  ((r.1).map forwardError, { st with handles := r.2.1, graphs := r.2.2 })

/-! ### Admission, launch, mutation, reaper (action_executor.cpp) -/

def graphExists (st : ExecutorState) (graph_name : String) : Bool :=
  (aLookup st.graphs graph_name).isSome

/-- `createId()` applied to each node in turn. -/
def assignIds : List Umrf → Nat → List Umrf × Nat
  | [], c => ([], c)
  | u :: rest, c =>
    let r := assignIds rest (c + 1)
    ({ u with id := c } :: r.1, r.2)

/-- `ActionExecutor::addUmrfGraph(graph_name, umrfs_vec)`.  The duplicate-name
check builds an error stack but never throws it (the source lacks the `throw`),
so control falls through: ids are still assigned (bumping the counter), the
graph is constructed, an uninitialized graph is rejected, and the final
`std::map::insert` silently keeps the existing graph. -/
def addUmrfGraph (st : ExecutorState) (graph_name : String) (umrfs_vec : List Umrf) :
    Option TemotoErrorStack × ExecutorState :=
  let _dead_error := if graphExists st graph_name then
    some (createError ("UMRF graph '" ++ graph_name ++ "' is already added"))
  else none
  let r := assignIds umrfs_vec st.id_count
  let ugh := UmrfGraph.construct graph_name r.1
  if ugh.checkState = .UNINITIALIZED then
    (some (forwardError (createError "Cannot add UMRF graph because it's uninitialized.")),
      { st with id_count := r.2 })
  else
    (none, { st with id_count := r.2, graphs := aInsert st.graphs graph_name ugh })

/-- `ActionExecutor::executeUmrfGraph(graph_name)`: reject a missing or
non-`INITIALIZED` graph, otherwise activate the root nodes through
`executeById` with `initialized_required = true`. -/
def executeUmrfGraph (env : ExecEnv) (st : ExecutorState) (graph_name : String) :
    Option TemotoErrorStack × ExecutorState :=
  match aLookup st.graphs graph_name with
  | none =>
    (some (forwardError (createError
      ("Cannot execute UMRF graph '" ++ graph_name ++ "' because it doesn't exist."))), st)
  | some g =>
    if g.checkState ≠ .INITIALIZED then
      (some (forwardError (createError
        ("Cannot execute UMRF graph '" ++ graph_name ++ "' because it's not in initialized state."))),
        st)
    else
      let r := executeById env g.getRootNodes g st.handles true
      ((r.err).map forwardError,
        { st with handles := r.handles, graphs := aSet st.graphs graph_name r.graph })

/-- `ActionExecutor::stopAction(action_handle_id)`: clear and erase the handle;
a missing id is ignored. -/
def stopAction (handles : HandleMap) (id : Nat) : HandleMap :=
  match aLookup handles id with
  | none => handles
  | some _ => aErase handles id

/-- A graph diff: an operation string and the node (or edge) descriptor. -/
structure UmrfGraphDiff where
  operation : String
  umrf : Umrf
deriving DecidableEq, Repr

/-- Validation pass of `modifyGraph`: `add_umrf` fails when the node is already
present; every other operation (the operation string itself is not inspected
here) fails when the node is absent. -/
def validateDiffs (g : UmrfGraph) : List UmrfGraphDiff → Option TemotoErrorStack
  | [] => none
  | d :: rest =>
    if d.operation = "add_umrf" then
      if g.partOfGraphName d.umrf.getFullName then
        some (createError ("Cannot add UMRF '" ++ d.umrf.getFullName ++ "'"))
      else validateDiffs g rest
    else
      if !(g.partOfGraphName d.umrf.getFullName) then
        some (createError ("Cannot perform operation '" ++ d.operation ++ "'"))
      else validateDiffs g rest

/-- Application pass of `modifyGraph`: each diff is applied in turn; an
unsupported operation throws mid-way, leaving the already-applied diffs in
place. -/
def applyDiffs (g : UmrfGraph) (handles : HandleMap) (idc : Nat) :
    List UmrfGraphDiff → Option TemotoErrorStack × UmrfGraph × HandleMap × Nat
  | [] => (none, g, handles, idc)
  | d :: rest =>
    if d.operation = "add_umrf" then
      match g.addUmrf { d.umrf with id := idc } with
      | .ok g1 => applyDiffs g1 handles (idc + 1) rest
      | .error e => (some e, g, handles, idc + 1)
    else if d.operation = "remove_umrf" then
      match g.removeUmrf d.umrf with
      | .ok (deposed, g1) => applyDiffs g1 (stopAction handles deposed) idc rest
      | .error e => (some e, g, handles, idc)
    else if d.operation = "add_child" then
      applyDiffs (g.addChild d.umrf) handles idc rest
    else if d.operation = "remove_child" then
      applyDiffs (g.removeChild d.umrf) handles idc rest
    else
      (some (createError ("No such operation as " ++ d.operation)), g, handles, idc)

/-- `ActionExecutor::modifyGraph(graph_name, graph_diffs)`: a missing graph is
only logged (no error); otherwise the validation pass runs first, and only if
it passes are the diffs applied. -/
def modifyGraph (st : ExecutorState) (graph_name : String)
    (diffs : List UmrfGraphDiff) : Option TemotoErrorStack × ExecutorState :=
  match aLookup st.graphs graph_name with
  | none => (none, st)
  | some g =>
    match validateDiffs g diffs with
    | some e => (some e, st)
    | none =>
      let r := applyDiffs g st.handles st.id_count diffs
      (r.1, { st with
        graphs := aSet st.graphs graph_name r.2.1
        handles := r.2.2.1
        id_count := r.2.2.2 })

/-- `ActionExecutor::getActionCount`. -/
def getActionCount (st : ExecutorState) : Nat := st.handles.length

/-- Mark a finished node on every graph it is part of (the inner graph loop of
`cleanupLoop`). -/
def markFinishedEverywhere (graphs : List (String × UmrfGraph)) (id : Nat) :
    List (String × UmrfGraph) :=
  graphs.map (fun e => if e.2.partOfGraphId id then (e.1, e.2.setNodeFinished id) else e)

/-- Handle sweep of `cleanupLoop`: a handle that is `FINISHED`, whose future is
ready, and whose effect is synchronous has its result read, the node marked
finished on every graph containing it, and `clearAction` invoked — but the
erase from the registry is commented out in the source (TODO), so the handle
stays. -/
def reapLoop : HandleMap → List (String × UmrfGraph) →
    HandleMap × List (String × UmrfGraph)
  | [], graphs => ([], graphs)
  | (id, h) :: rest, graphs =>
    if h.state = .FINISHED ∧ h.future_ready ∧ h.getEffect = "synchronous" then
      let graphs1 := markFinishedEverywhere graphs id
      let r := reapLoop rest graphs1
      ((id, { h with cleared := true }) :: r.1, r.2)
    else
      let r := reapLoop rest graphs
      ((id, h) :: r.1, r.2)

/-- One wake of `ActionExecutor::cleanupLoop`: sweep the handles, then drop
every graph whose state is `FINISHED`.  With no handles nothing happens. -/
def cleanupOnce (st : ExecutorState) : ExecutorState :=
  if st.handles.isEmpty then st
  else
    let r := reapLoop st.handles st.graphs
    { st with
      handles := r.1
      graphs := r.2.filter (fun e => !(e.2.checkState = .FINISHED)) }

/-! ### `ActionBase::executeActionWrapped` (action_base.h) -/

/-- The ways the virtual `executeAction` body can conclude. -/
inductive BodyOutcome
  | ok
  | temotoErr (e : TemotoErrorStack)
  | stdExc (msg : String)
  | unknownExc
deriving DecidableEq, Repr

/-- `ActionBase::executeActionWrapped`: refuse to run when `setUmrf` has not
been called; otherwise invoke `executeAction` and convert every escaping
exception into a `TemotoErrorStack`.  The Bool records whether the body was
invoked. -/
def executeActionWrapped (umrf_set : Bool) (body : BodyOutcome) :
    Bool × Except TemotoErrorStack Unit :=
  if !umrf_set then
    (false, .error (createError "Failed to execute the action because the UMRF is uninitialised"))
  else
    (true, match body with
      | .ok => .ok ()
      | .temotoErr e => .error (forwardError e)
      | .stdExc msg => .error (createError msg)
      | .unknownExc => .error (createError "Caught an unhandled error."))

/-! ### Well-formedness for the equality laws -/

/-- Duplicate-freedom of a node's keyed containers: parent and child relation
lists are duplicate-free up to the identifying `(name, suffix)` key, and the
parameter bags have unique names (the C++ containers maintain this: the bags
are `std::set`s keyed by name). -/
def Umrf.wfKeys (u : Umrf) : Prop :=
  (u.parents.map relKey).Nodup ∧ (u.children.map relKey).Nodup ∧
  (u.input_parameters.map ParameterContainer.name).Nodup ∧
  (u.output_parameters.map ParameterContainer.name).Nodup

/-! ### Concrete fixtures used by witnesses and counterexamples -/

/-- A correct node with the given name, id and relations. -/
def mkNode (n : String) (idv : Nat) (pars chs : List Relation) : Umrf :=
  { name := n, description := "", package_name := "p", suffix := 0, ntn := "nt"
    effect := "synchronous", library_path := "lib", parents := pars, children := chs
    id := idv, full_name := n ++ "_0", input_parameters := [], output_parameters := [] }

/-- External collaborators that always succeed. -/
def fixEnv0 : ExecEnv := ⟨fun _ => true, fun _ => true⟩

/-- External collaborators where the loader fails for node id 1. -/
def fixEnvInstFail : ExecEnv := ⟨fun i => !(i == 1), fun _ => true⟩

def fixGraphA : UmrfGraph := UmrfGraph.construct "g" [mkNode "a" 0 [] []]

def fixSt0 : ExecutorState := ⟨[], [("g", fixGraphA)], 1⟩

def fixHandleFin : ActionHandle := ⟨mkNode "a" 0 [] [], .FINISHED, true, "", false⟩

def fixGraphActive : UmrfGraph :=
  { fixGraphA with graph_state := .ACTIVE, node_states := [(0, .ACTIVE)] }

def fixSt5 : ExecutorState := ⟨[(0, fixHandleFin)], [("g", fixGraphActive)], 1⟩

def fixNodeA : Umrf := mkNode "a" 0 [] []

def fixNodeB : Umrf := mkNode "b" 1 [] []

def fixGraphAB : UmrfGraph := UmrfGraph.construct "g" [fixNodeA, fixNodeB]

def fixSt3 : ExecutorState := ⟨[], [("g", fixGraphAB)], 2⟩

def fixRelB : Relation := ⟨"b", 0, true, false⟩

def fixDiffs3 : List UmrfGraphDiff :=
  [⟨"add_child", { fixNodeA with children := [fixRelB] }⟩, ⟨"frobnicate", fixNodeA⟩]

def fixDiffsV : List UmrfGraphDiff := [⟨"add_child", mkNode "z" 9 [] []⟩]

def fixRelAreq : Relation := ⟨"a", 0, true, false⟩

def fixRelCreq : Relation := ⟨"c", 0, true, false⟩

def fixD1A : Umrf := mkNode "a" 0 [] [⟨"b", 0, true, false⟩, ⟨"d", 0, true, false⟩]

def fixD1C : Umrf := mkNode "c" 1 [] [⟨"b", 0, true, false⟩]

def fixD1B : Umrf := mkNode "b" 2 [fixRelAreq, fixRelCreq] []

def fixD1D : Umrf := mkNode "d" 3 [fixRelAreq] []

/-- Diamond graph mid-run: node a (id 0) has finished, node c (id 1) is still
running; b requires both a and c, d requires only a. -/
def fixGraphD1 : UmrfGraph :=
  ⟨"g", [fixD1A, fixD1C, fixD1B, fixD1D],
    [(0, .FINISHED), (1, .ACTIVE), (2, .NOT_STARTED), (3, .NOT_STARTED)], .ACTIVE⟩

def fixStD1 : ExecutorState := ⟨[], [("g", fixGraphD1)], 4⟩

def fixPOld : ParameterContainer := ⟨"x", "number", false, true, [], []⟩

def fixPNew : ParameterContainer := ⟨"x", "string", false, true, [], ["s"]⟩

def fixU6 : Umrf := { mkNode "a" 0 [] [] with input_parameters := [fixPOld] }

def fixU6in : Umrf := { mkNode "a" 0 [] [] with input_parameters := [fixPNew] }

def fixRelP : Relation := ⟨"p", 0, false, false⟩

def fixRelQ : Relation := ⟨"q", 0, false, false⟩

def fixU8A : Umrf := mkNode "n" 0 [fixRelP, fixRelP] []

def fixU8B : Umrf := mkNode "n" 0 [fixRelP, fixRelQ] []

def fixU10 : Umrf := mkNode "b" 2 [fixRelAreq, fixRelCreq] []

/-- The per-parameter comparison used by `isEqual`: `isEqualNoData` when
updatability is controlled and `isEqualNoDataNoUpdate` otherwise. -/
def pcCheck (check_updatable : Bool) (p q : ParameterContainer) : Bool :=
  if check_updatable then p.isEqualNoData q else p.isEqualNoDataNoUpdate q

/-- Generic per-parameter bag check: find by name and compare. -/
def bagCheck (f : ParameterContainer → ParameterContainer → Bool)
    (bag_in : ActionParameters) (p : ParameterContainer) : Bool :=
  match findByName bag_in p.name with
  | some q => f p q
  | none => false

/-! ## Lemmas about the association-list maps -/

def keysNodup {κ V : Type} [DecidableEq κ] (m : List (κ × V)) : Prop :=
  (m.map Prod.fst).Nodup

theorem aLookup_aSet {κ V : Type} [DecidableEq κ] (m : List (κ × V)) (k q : κ) (v : V) :
    aLookup (aSet m k v) q = if q = k then some v else aLookup m q := by
  induction m with
  | nil =>
    by_cases hq : q = k <;> simp [aSet, aLookup, hq]
  | cons e rest ih =>
    obtain ⟨k0, v0⟩ := e
    by_cases hk : k = k0
    · subst hk
      by_cases hq : q = k <;> simp [aSet, aLookup, hq]
    · by_cases hq : q = k0
      · subst hq
        have : ¬ q = k := fun h => hk h.symm
        simp [aSet, hk, aLookup, this]
      · simp [aSet, hk, aLookup, hq, ih]

theorem aLookup_aErase_ne {κ V : Type} [DecidableEq κ] (m : List (κ × V)) (k q : κ)
    (h : q ≠ k) : aLookup (aErase m k) q = aLookup m q := by
  induction m with
  | nil => simp [aErase]
  | cons e rest ih =>
    obtain ⟨k0, v0⟩ := e
    by_cases hk : k = k0
    · subst hk
      simp [aErase, aLookup, h]
    · by_cases hq : q = k0 <;> simp [aErase, hk, aLookup, hq, ih]

theorem aLookup_none_of_not_mem_keys {κ V : Type} [DecidableEq κ] (m : List (κ × V))
    (k : κ) (h : k ∉ m.map Prod.fst) : aLookup m k = none := by
  induction m with
  | nil => simp [aLookup]
  | cons e rest ih =>
    obtain ⟨k0, v0⟩ := e
    simp only [List.map_cons, List.mem_cons] at h
    push_neg at h
    simp [aLookup, h.1, ih h.2]

theorem aLookup_aErase_self {κ V : Type} [DecidableEq κ] (m : List (κ × V)) (k : κ)
    (h : keysNodup m) : aLookup (aErase m k) k = none := by
  induction m with
  | nil => simp [aErase, aLookup]
  | cons e rest ih =>
    obtain ⟨k0, v0⟩ := e
    simp only [keysNodup, List.map_cons, List.nodup_cons] at h
    by_cases hk : k = k0
    · subst hk
      simpa [aErase] using aLookup_none_of_not_mem_keys rest k h.1
    · simp [aErase, hk, aLookup, ih h.2]

theorem aLookup_aErase_none {κ V : Type} [DecidableEq κ] (m : List (κ × V)) (k q : κ)
    (h : aLookup m q = none) : aLookup (aErase m k) q = none := by
  induction m with
  | nil => simpa [aErase] using h
  | cons e rest ih =>
    obtain ⟨k0, v0⟩ := e
    by_cases hq : q = k0
    · subst hq; simp [aLookup] at h
    · simp only [aLookup, if_neg hq] at h
      by_cases hk : k = k0
      · subst hk; simpa [aErase] using h
      · simp [aErase, hk, aLookup, hq, ih h]

theorem aLookup_append {κ V : Type} [DecidableEq κ] (m m2 : List (κ × V)) (q : κ) :
    aLookup (m ++ m2) q =
      match aLookup m q with
      | some v => some v
      | none => aLookup m2 q := by
  induction m with
  | nil => simp [aLookup]
  | cons e rest ih =>
    obtain ⟨k0, v0⟩ := e
    by_cases hq : q = k0 <;> simp [aLookup, hq, ih]

theorem aLookup_aInsert_self_isSome {κ V : Type} [DecidableEq κ] (m : List (κ × V))
    (k : κ) (v : V) : (aLookup (aInsert m k v) k).isSome = true := by
  unfold aInsert
  cases h : aLookup m k with
  | some w => simp [h]
  | none => simp [aLookup_append, h, aLookup]

theorem aLookup_aInsert_isSome_mono {κ V : Type} [DecidableEq κ] (m : List (κ × V))
    (k q : κ) (v : V) (h : (aLookup m q).isSome = true) :
    (aLookup (aInsert m k v) q).isSome = true := by
  unfold aInsert
  cases hk : aLookup m k with
  | some w => simpa [hk] using h
  | none =>
    rw [aLookup_append]
    cases hq : aLookup m q with
    | some w => simp
    | none => simp [hq] at h

theorem aLookup_aInsertAll_isSome {κ V : Type} [DecidableEq κ] (tmp : List (κ × V)) :
    ∀ m q, ((aLookup m q).isSome = true ∨ (aLookup tmp q).isSome = true) →
      (aLookup (aInsertAll m tmp) q).isSome = true := by
  induction tmp with
  | nil =>
    intro m q h
    simpa [aInsertAll, aLookup] using h
  | cons e rest ih =>
    obtain ⟨k0, v0⟩ := e
    intro m q h
    by_cases hq : q = k0
    · subst hq
      exact ih (aInsert m q v0) q (Or.inl (aLookup_aInsert_self_isSome m q v0))
    · refine ih (aInsert m k0 v0) q ?_
      rcases h with h | h
      · exact Or.inl (aLookup_aInsert_isSome_mono m k0 q v0 h)
      · simpa [aLookup, hq] using Or.inr h

theorem mem_keys_aSet {κ V : Type} [DecidableEq κ] (m : List (κ × V)) (k q : κ) (v : V) :
    q ∈ (aSet m k v).map Prod.fst ↔ q = k ∨ q ∈ m.map Prod.fst := by
  induction m with
  | nil => simp [aSet]
  | cons e rest ih =>
    obtain ⟨k0, v0⟩ := e
    by_cases hk : k = k0
    · subst hk
      simp [aSet]
      try tauto
    · simp [aSet, hk, ih]
      try tauto

theorem keysNodup_aSet {κ V : Type} [DecidableEq κ] (m : List (κ × V)) (k : κ) (v : V)
    (h : keysNodup m) : keysNodup (aSet m k v) := by
  induction m with
  | nil => simp [keysNodup, aSet]
  | cons e rest ih =>
    obtain ⟨k0, v0⟩ := e
    simp only [keysNodup, List.map_cons, List.nodup_cons] at h
    by_cases hk : k = k0
    · subst hk
      simpa [keysNodup, aSet] using h
    · have hrest := ih h.2
      simp only [keysNodup, aSet, if_neg hk, List.map_cons, List.nodup_cons]
      refine ⟨fun hmem => ?_, hrest⟩
      rcases (mem_keys_aSet rest k k0 v).mp hmem with h1 | h1
      · exact hk h1.symm
      · exact h.1 h1

theorem keys_aErase_subset {κ V : Type} [DecidableEq κ] (m : List (κ × V)) (k q : κ)
    (h : q ∈ (aErase m k).map Prod.fst) : q ∈ m.map Prod.fst := by
  induction m with
  | nil => simpa [aErase] using h
  | cons e rest ih =>
    obtain ⟨k0, v0⟩ := e
    by_cases hk : k = k0
    · subst hk
      simp only [aErase, if_pos rfl] at h
      try simp [aErase] at h
      simp [h]
    · simp only [aErase, if_neg hk, List.map_cons, List.mem_cons] at h
      rcases h with h | h
      · simp [h]
      · simp [ih h]

theorem keysNodup_aErase {κ V : Type} [DecidableEq κ] (m : List (κ × V)) (k : κ)
    (h : keysNodup m) : keysNodup (aErase m k) := by
  induction m with
  | nil => simp [keysNodup, aErase]
  | cons e rest ih =>
    obtain ⟨k0, v0⟩ := e
    simp only [keysNodup, List.map_cons, List.nodup_cons] at h
    by_cases hk : k = k0
    · subst hk; simpa [keysNodup, aErase] using h.2
    · have hrest := ih h.2
      simp only [keysNodup, aErase, if_neg hk, List.map_cons, List.nodup_cons]
      exact ⟨fun hmem => h.1 (keys_aErase_subset rest k k0 hmem), hrest⟩

theorem mem_keys_of_aLookup_isSome {κ V : Type} [DecidableEq κ] (m : List (κ × V))
    (k : κ) (h : (aLookup m k).isSome = true) : k ∈ m.map Prod.fst := by
  induction m with
  | nil => simp [aLookup] at h
  | cons e rest ih =>
    obtain ⟨k0, v0⟩ := e
    by_cases hk : k = k0
    · simp [hk]
    · simp only [aLookup, if_neg hk] at h
      simp [ih h]

theorem aLookup_isSome_of_mem_keys {κ V : Type} [DecidableEq κ] (m : List (κ × V))
    (k : κ) (h : k ∈ m.map Prod.fst) : (aLookup m k).isSome = true := by
  induction m with
  | nil => simp at h
  | cons e rest ih =>
    obtain ⟨k0, v0⟩ := e
    by_cases hk : k = k0
    · simp [aLookup, hk]
    · simp only [List.map_cons, List.mem_cons] at h
      rcases h with h | h
      · exact absurd h hk
      · simp [aLookup, hk, ih h]

theorem keysNodup_aInsert {κ V : Type} [DecidableEq κ] (m : List (κ × V)) (k : κ) (v : V)
    (h : keysNodup m) : keysNodup (aInsert m k v) := by
  unfold aInsert
  cases hk : aLookup m k with
  | some w => exact h
  | none =>
    have hnotmem : k ∉ m.map Prod.fst := fun hmem => by
      have := aLookup_isSome_of_mem_keys m k hmem
      rw [hk] at this
      simp at this
    simp only [keysNodup, List.map_append, List.map_cons, List.map_nil]
    rw [List.nodup_append]
    refine ⟨h, List.nodup_singleton k, ?_⟩
    intro a ha hb
    simp only [List.mem_singleton] at hb
    subst hb
    exact hnotmem ha

theorem keysNodup_aInsertAll {κ V : Type} [DecidableEq κ] (tmp : List (κ × V)) :
    ∀ m, keysNodup m → keysNodup (aInsertAll m tmp) := by
  induction tmp with
  | nil => intro m h; exact h
  | cons e rest ih =>
    obtain ⟨k0, v0⟩ := e
    intro m h
    exact ih (aInsert m k0 v0) (keysNodup_aInsert m k0 v0 h)

/-! ## Lemmas about the sorted id set -/

theorem mem_insertSorted (a x : Nat) : ∀ l : List Nat, (x ∈ insertSorted a l ↔ x = a ∨ x ∈ l) := by
  intro l
  induction l with
  | nil => simp [insertSorted]
  | cons b rest ih =>
    by_cases h1 : a < b
    · simp [insertSorted, h1]
    · by_cases h2 : a = b
      · subst h2
        simp [insertSorted, h1]
        try tauto
      · simp [insertSorted, h1, h2, ih]
        try tauto

theorem pairwise_insertSorted (a : Nat) :
    ∀ l : List Nat, l.Pairwise (· < ·) → (insertSorted a l).Pairwise (· < ·) := by
  intro l
  induction l with
  | nil => intro _; simp [insertSorted]
  | cons b rest ih =>
    intro hp
    rw [List.pairwise_cons] at hp
    by_cases h1 : a < b
    · simp only [insertSorted, if_pos h1]
      rw [List.pairwise_cons]
      refine ⟨?_, List.pairwise_cons.mpr hp⟩
      intro x hx
      rcases List.mem_cons.mp hx with h | h
      · subst h; exact h1
      · exact Nat.lt_trans h1 (hp.1 x h)
    · by_cases h2 : a = b
      · subst h2
        simp only [insertSorted, if_neg h1, if_pos rfl]
        exact List.pairwise_cons.mpr hp
      · have hba : b < a := by omega
        simp only [insertSorted, if_neg h1, if_neg h2]
        rw [List.pairwise_cons]
        refine ⟨?_, ih hp.2⟩
        intro x hx
        rcases (mem_insertSorted a x rest).mp hx with h | h
        · subst h; exact hba
        · exact hp.1 x h

theorem nodup_of_pairwise_lt {l : List Nat} (h : l.Pairwise (· < ·)) : l.Nodup :=
  h.imp (fun hlt => Nat.ne_of_lt hlt)

/-! ## Lemmas about graph state updates -/

theorem umrfs_setNodeActive (g : UmrfGraph) (id : Nat) :
    (g.setNodeActive id).umrfs = g.umrfs := rfl

theorem umrfs_setNodeFinished (g : UmrfGraph) (id : Nat) :
    (g.setNodeFinished id).umrfs = g.umrfs := rfl

theorem umrfs_setNodeError (g : UmrfGraph) (id : Nat) :
    (g.setNodeError id).umrfs = g.umrfs := rfl

theorem nodeState_setNodeActive (g : UmrfGraph) (id c : Nat) :
    (g.setNodeActive id).nodeState c =
      if c = id then some .ACTIVE else g.nodeState c := by
  simp [UmrfGraph.setNodeActive, UmrfGraph.nodeState, aLookup_aSet]

theorem nodeState_setNodeFinished (g : UmrfGraph) (id c : Nat) :
    (g.setNodeFinished id).nodeState c =
      if c = id then some .FINISHED else g.nodeState c := by
  simp [UmrfGraph.setNodeFinished, UmrfGraph.nodeState, aLookup_aSet]

theorem nodeState_setNodeError (g : UmrfGraph) (id c : Nat) :
    (g.setNodeError id).nodeState c =
      if c = id then some .ERROR else g.nodeState c := by
  simp [UmrfGraph.setNodeError, UmrfGraph.nodeState, aLookup_aSet]

theorem getUmrfOf_congr {g1 g2 : UmrfGraph} (h : g1.umrfs = g2.umrfs) (id : Nat) :
    g1.getUmrfOf id = g2.getUmrfOf id := by
  simp [UmrfGraph.getUmrfOf, h]

/-! ## Invariants of the `executeById` phases -/

/-- A node id whose freshly built handle reached `INITIALIZED`. -/
def initIdOk (g : UmrfGraph) (id : Nat) : Prop :=
  ∃ u, g.getUmrfOf id = some u ∧ handleInitPred u = true

def CreateRes.initIds : CreateRes → List Nat
  | .ok _ l => l
  | .missingUmrf _ l => l
  | .notInitialized _ _ l => l

theorem handleInitPred_of_make_initialized {u : Umrf}
    (h : (ActionHandle.make u).state = .INITIALIZED) : handleInitPred u = true := by
  by_cases hp : handleInitPred u = true
  · exact hp
  · simp [ActionHandle.make, hp] at h

theorem getUmrfOf_id_eq {g : UmrfGraph} {id : Nat} {u : Umrf}
    (h : g.getUmrfOf id = some u) : u.id = id := by
  have := List.find?_some h
  simpa using this

theorem createHandlesGo_initIds_sound (g : UmrfGraph) (init_req : Bool) :
    ∀ (ids : List Nat) (tmp : HandleMap) (initAcc : List Nat),
      (∀ id ∈ initAcc, initIdOk g id) →
      ∀ id ∈ (createHandlesGo g init_req ids tmp initAcc).initIds, initIdOk g id := by
  intro ids
  induction ids with
  | nil =>
    intro tmp initAcc hacc
    simpa [createHandlesGo, CreateRes.initIds] using hacc
  | cons id rest ih =>
    intro tmp initAcc hacc
    simp only [createHandlesGo]
    split
    · simpa [CreateRes.initIds] using hacc
    · rename_i u hu
      split
      · rename_i hst
        refine ih _ _ ?_
        intro id2 hid2
        rcases (mem_insertSorted _ _ _).mp hid2 with h | h
        · subst h
          have hpred := handleInitPred_of_make_initialized hst
          have huid : u.id = id := getUmrfOf_id_eq hu
          refine ⟨u, ?_, hpred⟩
          simpa [ActionHandle.getHandleId, ActionHandle.make, huid] using hu
        · exact hacc id2 h
      · split
        · simpa [CreateRes.initIds] using hacc
        · exact ih _ _ hacc

theorem createHandlesGo_ok_inv (g : UmrfGraph) (init_req : Bool) :
    ∀ (ids : List Nat) (tmp : HandleMap) (initAcc : List Nat),
      (∀ id ∈ initAcc, (aLookup tmp id).isSome = true) →
      initAcc.Pairwise (· < ·) →
      ∀ tmp2 init2, createHandlesGo g init_req ids tmp initAcc = .ok tmp2 init2 →
        (∀ id ∈ init2, (aLookup tmp2 id).isSome = true) ∧ init2.Pairwise (· < ·) := by
  intro ids
  induction ids with
  | nil =>
    intro tmp initAcc hlook hpw tmp2 init2 heq
    simp only [createHandlesGo, CreateRes.ok.injEq] at heq
    obtain ⟨h1, h2⟩ := heq
    subst h1; subst h2
    exact ⟨hlook, hpw⟩
  | cons id rest ih =>
    intro tmp initAcc hlook hpw tmp2 init2 heq
    simp only [createHandlesGo] at heq
    split at heq
    · exact absurd heq (by simp)
    · rename_i u hu
      split at heq
      · refine ih _ _ ?_ ?_ tmp2 init2 heq
        · intro id2 hid2
          rcases (mem_insertSorted _ _ _).mp hid2 with h | h
          · subst h
            exact aLookup_aInsert_self_isSome tmp _ _
          · exact aLookup_aInsert_isSome_mono tmp _ _ _ (hlook id2 h)
        · exact pairwise_insertSorted _ _ hpw
      · split at heq
        · exact absurd heq (by simp)
        · exact ih _ _ hlook hpw tmp2 init2 heq

theorem instantiateLoop_umrfs (env : ExecEnv) :
    ∀ (ids : List Nat) (g : UmrfGraph), ((instantiateLoop env ids g).2).umrfs = g.umrfs := by
  intro ids
  induction ids with
  | nil => intro g; rfl
  | cons id rest ih =>
    intro g
    by_cases h : env.instOk id <;> simp [instantiateLoop, h, ih, umrfs_setNodeError]

theorem instantiateLoop_nodeState_other (env : ExecEnv) :
    ∀ (ids : List Nat) (g : UmrfGraph) (c : Nat), c ∉ ids →
      ((instantiateLoop env ids g).2).nodeState c = g.nodeState c := by
  intro ids
  induction ids with
  | nil => intro g c _; rfl
  | cons id rest ih =>
    intro g c hc
    have hcid : c ≠ id := fun h => hc (h ▸ List.mem_cons_self id rest)
    have hcrest : c ∉ rest := fun h => hc (List.mem_cons_of_mem id h)
    by_cases h : env.instOk id
    · simp [instantiateLoop, h, ih g c hcrest]
    · simp [instantiateLoop, h, nodeState_setNodeError, hcid]

theorem executeLoop_graph_umrfs (env : ExecEnv) :
    ∀ (ids : List Nat) (h : HandleMap) (g : UmrfGraph),
      ((executeLoop env ids h g).2.2).umrfs = g.umrfs := by
  intro ids
  induction ids with
  | nil => intro h g; rfl
  | cons id rest ih =>
    intro h g
    by_cases hx : env.execOk id
    · simp only [executeLoop, if_pos hx]
      rw [ih]
      rfl
    · simp [executeLoop, hx, umrfs_setNodeError]

theorem executeLoop_nodeState_other (env : ExecEnv) :
    ∀ (ids : List Nat) (h : HandleMap) (g : UmrfGraph) (c : Nat), c ∉ ids →
      ((executeLoop env ids h g).2.2).nodeState c = g.nodeState c := by
  intro ids
  induction ids with
  | nil => intro h g c _; rfl
  | cons id rest ih =>
    intro h g c hc
    have hcid : c ≠ id := fun hh => hc (hh ▸ List.mem_cons_self id rest)
    have hcrest : c ∉ rest := fun hh => hc (List.mem_cons_of_mem id hh)
    by_cases hx : env.execOk id
    · simp only [executeLoop, if_pos hx]
      rw [ih _ _ c hcrest, nodeState_setNodeActive]
      simp [hcid]
    · simp [executeLoop, hx, nodeState_setNodeError, hcid]

theorem executeLoop_handles_isSome (env : ExecEnv) :
    ∀ (ids : List Nat) (h : HandleMap) (g : UmrfGraph) (q : Nat),
      (aLookup h q).isSome = true →
      (aLookup (executeLoop env ids h g).2.1 q).isSome = true := by
  intro ids
  induction ids with
  | nil => intro h g q hq; exact hq
  | cons id rest ih =>
    intro h g q hq
    by_cases hx : env.execOk id
    · simp only [executeLoop, if_pos hx]
      cases hl : aLookup h id with
      | some ah =>
        refine ih (aSet h id { ah with state := .RUNNING }) _ q ?_
        rw [aLookup_aSet]
        by_cases hqid : q = id <;> simp [hqid, hq]
      | none =>
        exact ih h _ q hq
    · simpa [executeLoop, hx] using hq

theorem executeLoop_keysNodup (env : ExecEnv) :
    ∀ (ids : List Nat) (h : HandleMap) (g : UmrfGraph),
      keysNodup h → keysNodup (executeLoop env ids h g).2.1 := by
  intro ids
  induction ids with
  | nil => intro h g hk; exact hk
  | cons id rest ih =>
    intro h g hk
    by_cases hx : env.execOk id
    · simp only [executeLoop, if_pos hx]
      cases hl : aLookup h id with
      | some ah => exact ih (aSet h id { ah with state := .RUNNING }) _ (keysNodup_aSet h _ _ hk)
      | none => exact ih h _ hk
    · simpa [executeLoop, hx] using hk

/-! ## Lemmas about the rollback loop -/

theorem rollbackLoop_cleared_mono :
    ∀ (rb : List Nat) (h : HandleMap) (g : UmrfGraph) (cl : List Nat),
      ∃ t, (rollbackLoop rb h g cl).2.2.2 = cl ++ t := by
  intro rb
  induction rb with
  | nil => intro h g cl; exact ⟨[], by simp [rollbackLoop]⟩
  | cons id rest ih =>
    intro h g cl
    cases hl : aLookup h id with
    | some ah =>
      obtain ⟨t, ht⟩ := ih (aErase h id) (g.setNodeFinished id) (cl ++ [id])
      exact ⟨id :: t, by simp [rollbackLoop, hl, ht]⟩
    | none => exact ⟨[], by simp [rollbackLoop, hl]⟩

theorem rollbackLoop_lookup_none :
    ∀ (rb : List Nat) (h : HandleMap) (g : UmrfGraph) (cl : List Nat) (q : Nat),
      aLookup h q = none → aLookup (rollbackLoop rb h g cl).2.1 q = none := by
  intro rb
  induction rb with
  | nil => intro h g cl q hq; exact hq
  | cons id rest ih =>
    intro h g cl q hq
    cases hl : aLookup h id with
    | some ah =>
      simp only [rollbackLoop, hl]
      exact ih _ _ _ q (aLookup_aErase_none h id q hq)
    | none => simpa [rollbackLoop, hl] using hq

theorem rollbackLoop_nodeState_other :
    ∀ (rb : List Nat) (h : HandleMap) (g : UmrfGraph) (cl : List Nat) (c : Nat), c ∉ rb →
      (rollbackLoop rb h g cl).2.2.1.nodeState c = g.nodeState c := by
  intro rb
  induction rb with
  | nil => intro h g cl c _; rfl
  | cons id rest ih =>
    intro h g cl c hc
    have hcid : c ≠ id := fun hh => hc (hh ▸ List.mem_cons_self id rest)
    have hcrest : c ∉ rest := fun hh => hc (List.mem_cons_of_mem id hh)
    cases hl : aLookup h id with
    | some ah =>
      simp only [rollbackLoop, hl]
      rw [ih _ _ _ c hcrest, nodeState_setNodeFinished]
      simp [hcid]
    | none => simp [rollbackLoop, hl]

theorem rollbackLoop_umrfs :
    ∀ (rb : List Nat) (h : HandleMap) (g : UmrfGraph) (cl : List Nat),
      (rollbackLoop rb h g cl).2.2.1.umrfs = g.umrfs := by
  intro rb
  induction rb with
  | nil => intro h g cl; rfl
  | cons id rest ih =>
    intro h g cl
    cases hl : aLookup h id with
    | some ah =>
      simp only [rollbackLoop, hl]
      rw [ih, umrfs_setNodeFinished]
    | none => simp [rollbackLoop, hl]

theorem rollbackLoop_post :
    ∀ (rb : List Nat) (h : HandleMap) (g : UmrfGraph) (cl : List Nat),
      rb.Nodup → (∀ id ∈ rb, (aLookup h id).isSome = true) → keysNodup h →
      (rollbackLoop rb h g cl).1 = true ∧
      ∀ id ∈ rb,
        id ∈ (rollbackLoop rb h g cl).2.2.2 ∧
        aLookup (rollbackLoop rb h g cl).2.1 id = none ∧
        (rollbackLoop rb h g cl).2.2.1.nodeState id = some .FINISHED := by
  intro rb
  induction rb with
  | nil =>
    intro h g cl _ _ _
    exact ⟨rfl, by simp⟩
  | cons id rest ih =>
    intro h g cl hnd hsome hk
    have hid : (aLookup h id).isSome = true := hsome id (List.mem_cons_self id rest)
    obtain ⟨ah, hah⟩ := Option.isSome_iff_exists.mp hid
    have hnd2 := List.nodup_cons.mp hnd
    have hpre : ∀ id2 ∈ rest, (aLookup (aErase h id) id2).isSome = true := by
      intro id2 h2
      have hne : id2 ≠ id := fun hh => hnd2.1 (hh ▸ h2)
      rw [aLookup_aErase_ne h id id2 hne]
      exact hsome id2 (List.mem_cons_of_mem id h2)
    have hrec := ih (aErase h id) (g.setNodeFinished id) (cl ++ [id]) hnd2.2 hpre
      (keysNodup_aErase h id hk)
    refine ⟨by simp [rollbackLoop, hah, hrec.1], ?_⟩
    intro id0 hid0
    rcases List.mem_cons.mp hid0 with h0 | h0
    · subst h0
      refine ⟨?_, ?_, ?_⟩
      · obtain ⟨t, ht⟩ := rollbackLoop_cleared_mono rest (aErase h id0) (g.setNodeFinished id0)
          (cl ++ [id0])
        simp [rollbackLoop, hah, ht]
      · have h1 : aLookup (aErase h id0) id0 = none := aLookup_aErase_self h id0 hk
        simp only [rollbackLoop, hah]
        exact rollbackLoop_lookup_none rest _ _ _ id0 h1
      · simp only [rollbackLoop, hah]
        rw [rollbackLoop_nodeState_other rest _ _ _ id0 hnd2.1, nodeState_setNodeFinished]
        simp
    · have := (hrec.2) id0 h0
      simpa [rollbackLoop, hah] using this

/-- C4: if `executeById` fails in its instantiation phase or its execution
phase, then for every id in the rollback set accumulated so far `clearAction`
is called on that id's handle, the handle is erased from the handle registry,
and `set_node_finished` is applied to the node on the graph; the original
error is re-raised. -/
theorem executeById_rollback_on_failure (env : ExecEnv) (ids : List Nat) (g : UmrfGraph)
    (handles : HandleMap) (ir : Bool) (hk : keysNodup handles)
    (hph : (executeById env ids g handles ir).failPhase = some .instantiation ∨
           (executeById env ids g handles ir).failPhase = some .execution) :
    (∃ e, (executeById env ids g handles ir).err = some e) ∧
    ∀ id ∈ (executeById env ids g handles ir).rollback,
      id ∈ (executeById env ids g handles ir).cleared ∧
      aLookup (executeById env ids g handles ir).handles id = none ∧
      (executeById env ids g handles ir).graph.nodeState id = some .FINISHED := by
  unfold executeById at hph ⊢
  cases hc : createHandles g ir ids with
  | missingUmrf e rb =>
    try rw [hc] at hph
    simp [eidAfterCreate] at hph
  | notInitialized e tmp rb =>
    try rw [hc] at hph
    simp [eidAfterCreate] at hph
  | ok tmp init =>
    try rw [hc] at hph
    simp only [eidAfterCreate] at hph ⊢
    have hinv := createHandlesGo_ok_inv g ir ids [] [] (by simp) (by simp) tmp init hc
    have hnd : init.Nodup := nodup_of_pairwise_lt hinv.2
    have hsome1 : ∀ id ∈ init, (aLookup (aInsertAll handles tmp) id).isSome = true := by
      intro id hid
      exact aLookup_aInsertAll_isSome tmp handles id (Or.inr (hinv.1 id hid))
    have hk1 : keysNodup (aInsertAll handles tmp) := keysNodup_aInsertAll tmp handles hk
    unfold eidInstPhase at hph ⊢
    cases hi : instantiateLoop env init g with
    | mk oe g1 =>
      try rw [hi] at hph
      try rw [hi]
      cases oe with
      | some e =>
        simp only [eidInstDispatch] at hph ⊢
        have hpost := rollbackLoop_post init (aInsertAll handles tmp) g1 [] hnd hsome1 hk1
        exact ⟨⟨_, rfl⟩, fun id hid => hpost.2 id hid⟩
      | none =>
        simp only [eidInstDispatch] at hph ⊢
        unfold eidExecPhase at hph ⊢
        cases he : executeLoop env init (aInsertAll handles tmp) g1 with
        | mk oe2 hg2 =>
          try rw [he] at hph
          try rw [he]
          obtain ⟨h2, g2⟩ := hg2
          cases oe2 with
          | some e2 =>
            simp only [eidExecDispatch] at hph ⊢
            have hsome2 : ∀ id ∈ init, (aLookup h2 id).isSome = true := by
              intro id hid
              have := executeLoop_handles_isSome env init (aInsertAll handles tmp) g1 id
                (hsome1 id hid)
              rw [he] at this
              exact this
            have hk2 : keysNodup h2 := by
              have := executeLoop_keysNodup env init (aInsertAll handles tmp) g1 hk1
              rw [he] at this
              exact this
            have hpost := rollbackLoop_post init h2 g2 [] hnd hsome2 hk2
            exact ⟨⟨_, rfl⟩, fun id hid => hpost.2 id hid⟩
          | none =>
            simp [eidExecDispatch] at hph

/-- C2 (code evidence): with graph "g" already stored, `addUmrfGraph` on the
same name raises no error (the duplicate-name error stack is built but never
thrown) and leaves the stored graphs unchanged (`std::map::insert` keeps the
existing entry); only the id counter advances.  The spec requires a synchronous
rejection here. -/
theorem addUmrfGraph_duplicate_is_not_rejected :
    (addUmrfGraph fixSt0 "g" [mkNode "b" 99 [] []]).1 = none ∧
    (addUmrfGraph fixSt0 "g" [mkNode "b" 99 [] []]).2.graphs = fixSt0.graphs ∧
    (addUmrfGraph fixSt0 "g" [mkNode "b" 99 [] []]).2.id_count = 2 := by
  refine ⟨?_, ?_, ?_⟩ <;> decide

/-- C5 (code evidence): the reaper processes a `FINISHED`, future-ready,
synchronous handle — it marks the node finished (the graph completes and is
swept) and calls `clearAction` — but the erase from the handle registry is
commented out in the source, so `getActionCount` stays 1 instead of dropping
to 0. -/
theorem cleanupOnce_keeps_synchronous_handle :
    ((reapLoop fixSt5.handles fixSt5.graphs).2.map (fun e => e.2.node_states)) =
      [[(0, NodeState.FINISHED)]] ∧
    (cleanupOnce fixSt5).graphs = [] ∧
    ((cleanupOnce fixSt5).handles.map (fun e => (e.1, e.2.cleared))) = [(0, true)] ∧
    getActionCount (cleanupOnce fixSt5) = 1 := by
  refine ⟨?_, ?_, ?_, ?_⟩ <;> decide

/-- C3 (counterexample): a diff list whose first entry is a valid `add_child`
and whose second entry carries the unsupported operation "frobnicate" (on a
node that is present, so the validation pass accepts it) makes `modifyGraph`
raise an error *after* applying the first diff: the stored graph differs from
the original, violating all-or-nothing. -/
theorem modifyGraph_unsupported_op_partial_application :
    (modifyGraph fixSt3 "g" fixDiffs3).1 =
      some (createError "No such operation as frobnicate") ∧
    ((aLookup (modifyGraph fixSt3 "g" fixDiffs3).2.graphs "g").map
        (fun g => g.umrfs.map (fun u => u.children.length))) = some [1, 0] ∧
    (modifyGraph fixSt3 "g" fixDiffs3).2 ≠ fixSt3 := by
  refine ⟨?_, ?_, ?_⟩ <;> decide

/-- C6 (counterexample): `updateInputParams` receives a parameter named "x"
whose shape differs from the stored one (`isEqualNoDataNoUpdate` is false);
because the stored parameter is updatable it is replaced wholesale — type
included — the call reports success, and no error is raised (the function has
no failure path). -/
theorem updateInputParams_silent_structural_update :
    ParameterContainer.isEqualNoDataNoUpdate fixPOld fixPNew = false ∧
    (fixU6.updateInputParams fixU6in).1 = true ∧
    (fixU6.updateInputParams fixU6in).2.input_parameters = [fixPNew] := by
  refine ⟨?_, ?_, ?_⟩ <;> decide

/-- C8 (counterexample): with a duplicated parent relation, `isEqual` is not
symmetric — for `a` with parents `[p, p]` and `b` with parents `[p, q]`,
`isEqual b a` holds but `isEqual a b` does not, under both values of
`check_updatable`. -/
theorem isEqual_not_symmetric :
    Umrf.isEqual fixU8B fixU8A true = true ∧ Umrf.isEqual fixU8A fixU8B true = false ∧
    Umrf.isEqual fixU8B fixU8A false = true ∧ Umrf.isEqual fixU8A fixU8B false = false := by
  refine ⟨?_, ?_, ?_, ?_⟩ <;> decide

/-- C7: `executeUmrfGraph(name)` raises its error exactly when the named graph
is missing or not `INITIALIZED` (leaving the state untouched); otherwise it
activates precisely the graph's root nodes through `executeById` with
`initialized_required = true`, forwarding any activation failure. -/
theorem executeUmrfGraph_launch_contract (env : ExecEnv) (st : ExecutorState)
    (gn : String) :
    (aLookup st.graphs gn = none →
      executeUmrfGraph env st gn =
        (some (forwardError (createError
          ("Cannot execute UMRF graph '" ++ gn ++ "' because it doesn't exist."))), st)) ∧
    (∀ g, aLookup st.graphs gn = some g →
      (g.checkState ≠ .INITIALIZED →
        executeUmrfGraph env st gn =
          (some (forwardError (createError
            ("Cannot execute UMRF graph '" ++ gn ++ "' because it's not in initialized state."))),
            st)) ∧
      (g.checkState = .INITIALIZED →
        executeUmrfGraph env st gn =
          (((executeById env g.getRootNodes g st.handles true).err).map forwardError,
            { st with
              handles := (executeById env g.getRootNodes g st.handles true).handles
              graphs := aSet st.graphs gn (executeById env g.getRootNodes g st.handles true).graph }))) := by
  refine ⟨fun h => by simp [executeUmrfGraph, h], fun g hg => ⟨fun hcs => ?_, fun hcs => ?_⟩⟩
  · simp [executeUmrfGraph, hg, hcs]
  · simp [executeUmrfGraph, hg, hcs]

/-- C7 (witness): on the stored `INITIALIZED` single-node graph "g" the launch
reduces to `executeById` over the roots with `initialized_required = true`. -/
theorem executeUmrfGraph_launch_contract_witness :
    executeUmrfGraph fixEnv0 fixSt0 "g" =
      (((executeById fixEnv0 fixGraphA.getRootNodes fixGraphA fixSt0.handles true).err).map
          forwardError,
        { fixSt0 with
          handles := (executeById fixEnv0 fixGraphA.getRootNodes fixGraphA fixSt0.handles true).handles
          graphs := aSet fixSt0.graphs "g"
            (executeById fixEnv0 fixGraphA.getRootNodes fixGraphA fixSt0.handles true).graph }) :=
  ((executeUmrfGraph_launch_contract fixEnv0 fixSt0 "g").2 fixGraphA (by decide)).2 (by decide)

/-- C9: `executeActionWrapped` refuses to run (without invoking the body) when
`setUmrf` has not been called, and otherwise invokes the body, converting every
escaping exception into a structured `TemotoErrorStack`. -/
theorem executeActionWrapped_contract (umrf_set : Bool) (body : BodyOutcome) :
    (umrf_set = false →
      executeActionWrapped umrf_set body =
        (false, .error (createError "Failed to execute the action because the UMRF is uninitialised"))) ∧
    (umrf_set = true →
      (executeActionWrapped umrf_set body).1 = true ∧
      (body = .ok → (executeActionWrapped umrf_set body).2 = .ok ()) ∧
      (body ≠ .ok → ∃ e, (executeActionWrapped umrf_set body).2 = .error e)) := by
  cases umrf_set <;> cases body <;> simp [executeActionWrapped]

/-- C9 (witness): with the UMRF set, a body that throws a std::exception is
invoked and its failure surfaces as a structured error stack. -/
theorem executeActionWrapped_contract_witness :
    (executeActionWrapped true (BodyOutcome.stdExc "boom")).1 = true ∧
    (∃ e, (executeActionWrapped true (BodyOutcome.stdExc "boom")).2 = .error e) := by
  have h := (executeActionWrapped_contract true (BodyOutcome.stdExc "boom")).2 rfl
  exact ⟨h.1, h.2.2 (by decide)⟩

theorem markFirstReceived_none (r : Relation) :
    ∀ l : List Relation, (∀ p ∈ l, relEqb p r = false) → markFirstReceived l r = none := by
  intro l
  induction l with
  | nil => intro _; rfl
  | cons p rest ih =>
    intro h
    have hp : relEqb p r = false := h p (List.mem_cons_self p rest)
    have hrest := ih (fun q hq => h q (List.mem_cons_of_mem p hq))
    simp [markFirstReceived, hp, hrest]

theorem markFirstReceived_at (r : Relation) :
    ∀ (l : List Relation) (i : Nat) (hi : i < l.length),
      relEqb (l.get ⟨i, hi⟩) r = true →
      (∀ (j : Nat) (hj : j < l.length), j < i → relEqb (l.get ⟨j, hj⟩) r = false) →
      markFirstReceived l r =
        some (l.set i { l.get ⟨i, hi⟩ with received := true }) := by
  intro l
  induction l with
  | nil => intro i hi; exact absurd hi (by simp)
  | cons p rest ih =>
    intro i hi hrel hprev
    cases i with
    | zero =>
      simp only [List.get] at hrel
      simp [markFirstReceived, hrel, List.set]
    | succ j =>
      have hp : relEqb p r = false := hprev 0 (by simp) (Nat.succ_pos j)
      have hj : j < rest.length := by simpa using hi
      have hrel2 : relEqb (rest.get ⟨j, hj⟩) r = true := by simpa [List.get] using hrel
      have hprev2 : ∀ (k : Nat) (hk : k < rest.length), k < j →
          relEqb (rest.get ⟨k, hk⟩) r = false := by
        intro k hk hkj
        have := hprev (k + 1) (by simpa using Nat.succ_lt_succ hk) (Nat.succ_lt_succ hkj)
        simpa [List.get] using this
      have := ih j hj hrel2 hprev2
      simp [markFirstReceived, hp, this, List.set]

/-- C10: `setParentReceived(r)` succeeds when `r` occurs in the parents list,
setting `received` on the first relation equal to `r` (by the `(name, suffix)`
comparison) and leaving the rest untouched; a second call with the same
relation is a no-op.  When `r` does not occur, the error "The parent does not
exist" is raised and no updated node is produced. -/
theorem setParentReceived_contract (u : Umrf) (r : Relation) :
    ((∀ p ∈ u.parents, relEqb p r = false) →
      u.setParentReceived r = .error (createError "The parent does not exist")) ∧
    (∀ (i : Nat) (hi : i < u.parents.length),
      relEqb (u.parents.get ⟨i, hi⟩) r = true →
      (∀ (j : Nat) (hj : j < u.parents.length), j < i →
        relEqb (u.parents.get ⟨j, hj⟩) r = false) →
      ∃ u2, u.setParentReceived r = .ok u2 ∧
        u2.parents = u.parents.set i { u.parents.get ⟨i, hi⟩ with received := true } ∧
        u2.setParentReceived r = .ok u2) := by
  constructor
  · intro h
    simp [Umrf.setParentReceived, markFirstReceived_none r u.parents h]
  · intro i hi hrel hprev
    have hmark := markFirstReceived_at r u.parents i hi hrel hprev
    refine ⟨{ u with parents := u.parents.set i { u.parents.get ⟨i, hi⟩ with received := true } },
      ?_, rfl, ?_⟩
    · simp [Umrf.setParentReceived, hmark]
    · have hlen : (u.parents.set i { u.parents.get ⟨i, hi⟩ with received := true }).length =
          u.parents.length := by simp
      have hi2 : i < (u.parents.set i { u.parents.get ⟨i, hi⟩ with received := true }).length := by
        rw [hlen]; exact hi
      have hget_i : (u.parents.set i { u.parents.get ⟨i, hi⟩ with received := true }).get ⟨i, hi2⟩ =
          { u.parents.get ⟨i, hi⟩ with received := true } := by
        simp [List.get_eq_getElem, List.getElem_set]
      have hrel2 : relEqb ((u.parents.set i
          { u.parents.get ⟨i, hi⟩ with received := true }).get ⟨i, hi2⟩) r = true := by
        rw [hget_i]
        exact hrel
      have hprev2 : ∀ (j : Nat)
          (hj : j < (u.parents.set i { u.parents.get ⟨i, hi⟩ with received := true }).length),
          j < i → relEqb ((u.parents.set i
            { u.parents.get ⟨i, hi⟩ with received := true }).get ⟨j, hj⟩) r = false := by
        intro j hj hji
        have hj1 : j < u.parents.length := by rw [hlen] at hj; exact hj
        have hne : i ≠ j := Nat.ne_of_gt hji
        have : (u.parents.set i { u.parents.get ⟨i, hi⟩ with received := true }).get ⟨j, hj⟩ =
            u.parents.get ⟨j, hj1⟩ := by
          simp [List.get_eq_getElem, List.getElem_set, hne]
        rw [this]
        exact hprev j hj1 hji
      have hmark2 := markFirstReceived_at r _ i hi2 hrel2 hprev2
      rw [hget_i] at hmark2
      simp only [Umrf.setParentReceived, hmark2]
      rw [List.set_set]

/-- C10 (witness): on the node with required parents a and c, marking parent a
received succeeds at index 0, leaves c untouched, and is idempotent; marking an
unknown parent fails with the source's error message. -/
theorem setParentReceived_contract_witness :
    (fixU10.setParentReceived ⟨"z", 0, false, false⟩ =
      .error (createError "The parent does not exist")) ∧
    (∃ u2, fixU10.setParentReceived ⟨"a", 0, false, false⟩ = .ok u2 ∧
      u2.parents = fixU10.parents.set 0
        { fixU10.parents.get ⟨0, by decide⟩ with received := true } ∧
      u2.setParentReceived ⟨"a", 0, false, false⟩ = .ok u2) := by
  constructor
  · exact (setParentReceived_contract fixU10 ⟨"z", 0, false, false⟩).1 (by decide)
  · exact (setParentReceived_contract fixU10 ⟨"a", 0, false, false⟩).2 0 (by decide)
      (by decide) (by intro j hj hj0; omega)

/-- C4 (witness): with two initialized roots and a loader that fails on id 1,
`executeById` fails in the instantiation phase and rolls back both ids. -/
theorem executeById_rollback_on_failure_witness :
    (∃ e, (executeById fixEnvInstFail [0, 1] fixGraphAB [] true).err = some e) ∧
    ∀ id ∈ (executeById fixEnvInstFail [0, 1] fixGraphAB [] true).rollback,
      id ∈ (executeById fixEnvInstFail [0, 1] fixGraphAB [] true).cleared ∧
      aLookup (executeById fixEnvInstFail [0, 1] fixGraphAB [] true).handles id = none ∧
      (executeById fixEnvInstFail [0, 1] fixGraphAB [] true).graph.nodeState id =
        some .FINISHED :=
  executeById_rollback_on_failure fixEnvInstFail [0, 1] fixGraphAB [] true
    (by simp [keysNodup]) (by decide)

/-- C3 (amended): for an existing graph, a failing validation pass leaves the
state untouched and returns the validation error (all-or-nothing holds for
validation failures); and the validation pass accepts a diff list exactly when
every `add_umrf` diff names an absent node and every other diff — the
operation string itself is not inspected, so unsupported operations pass —
names a present node. -/
theorem modifyGraph_validation_all_or_nothing (st : ExecutorState) (gn : String)
    (diffs : List UmrfGraphDiff) (g : UmrfGraph) (hg : aLookup st.graphs gn = some g) :
    ((validateDiffs g diffs).isSome = true →
      modifyGraph st gn diffs = (validateDiffs g diffs, st)) ∧
    (validateDiffs g diffs = none ↔
      ∀ d ∈ diffs,
        (d.operation = "add_umrf" → g.partOfGraphName d.umrf.getFullName = false) ∧
        (d.operation ≠ "add_umrf" → g.partOfGraphName d.umrf.getFullName = true)) := by
  constructor
  · intro hv
    obtain ⟨e, he⟩ := Option.isSome_iff_exists.mp hv
    simp [modifyGraph, hg, he]
  · induction diffs with
    | nil => simp [validateDiffs]
    | cons d rest ih =>
      by_cases hop : d.operation = "add_umrf"
      · by_cases hpart : g.partOfGraphName d.umrf.getFullName = true
        · simp [validateDiffs, hop, hpart]
        · simp only [Bool.not_eq_true] at hpart
          simp [validateDiffs, hop, hpart, ih]
          try tauto
      · by_cases hpart : g.partOfGraphName d.umrf.getFullName = true
        · simp [validateDiffs, hop, hpart, ih]
          try tauto
        · simp only [Bool.not_eq_true] at hpart
          simp [validateDiffs, hop, hpart]
          try (intro h; exact absurd (h.2 hop) (by simp [hpart]))

/-- C3 (amended, witness): a single `add_child` diff naming an absent node
fails validation, and `modifyGraph` returns that error with the state intact. -/
theorem modifyGraph_validation_all_or_nothing_witness :
    modifyGraph fixSt3 "g" fixDiffsV = (validateDiffs fixGraphAB fixDiffsV, fixSt3) :=
  (modifyGraph_validation_all_or_nothing fixSt3 "g" fixDiffsV fixGraphAB (by decide)).1
    (by decide)

theorem findByName_setParameter_other (q : ParameterContainer) (n : String)
    (h : n ≠ q.name) :
    ∀ bag : ActionParameters, findByName (setParameter bag q) n = findByName bag n := by
  have hqn : ¬ q.name = n := fun hh => h hh.symm
  intro bag
  induction bag with
  | nil => simp [setParameter, findByName, hqn]
  | cons p rest ih =>
    by_cases hp : p.name = q.name
    · have hpn : ¬ p.name = n := fun hh => hqn (by rw [← hp]; exact hh)
      simp [setParameter, hp, findByName, hqn, hpn]
    · by_cases hn : p.name = n
      · simp [setParameter, hp, findByName, hn, h]
      · simp [setParameter, hp, findByName, hn, ih]

theorem findByName_setParameter_self (q : ParameterContainer) :
    ∀ bag : ActionParameters, findByName (setParameter bag q) q.name = some q := by
  intro bag
  induction bag with
  | nil => simp [setParameter, findByName]
  | cons p rest ih =>
    by_cases hp : p.name = q.name
    · simp [setParameter, hp, findByName]
    · simp [setParameter, hp, findByName, ih]

theorem updateParamsLoop_other (n : String) :
    ∀ (ps : List ParameterContainer) (bag : ActionParameters) (b : Bool),
      (∀ p ∈ ps, p.name ≠ n) →
      findByName (updateParamsLoop ps bag b).2 n = findByName bag n := by
  intro ps
  induction ps with
  | nil => intro bag b _; rfl
  | cons p rest ih =>
    intro bag b h
    have hp : p.name ≠ n := h p (List.mem_cons_self p rest)
    have hrest : ∀ q ∈ rest, q.name ≠ n := fun q hq => h q (List.mem_cons_of_mem p hq)
    cases hfb : findByName bag p.name with
    | none => simp only [updateParamsLoop, hfb]; exact ih bag b hrest
    | some loc =>
      by_cases hupd : loc.updatable = true
      · simp only [updateParamsLoop, hfb, if_pos hupd]
        rw [ih _ _ hrest]
        exact findByName_setParameter_other p n (fun hh => hp hh.symm) bag
      · simp only [updateParamsLoop, hfb, if_neg hupd]
        exact ih bag b hrest

theorem updateParamsLoop_main :
    ∀ (ps : List ParameterContainer) (bag : ActionParameters) (b : Bool),
      (ps.map ParameterContainer.name).Nodup →
      ∀ p ∈ ps,
        findByName (updateParamsLoop ps bag b).2 p.name =
          match findByName bag p.name with
          | none => none
          | some loc => if loc.updatable then some p else some loc := by
  intro ps
  induction ps with
  | nil => intro bag b _ p hp; simp at hp
  | cons q rest ih =>
    intro bag b hnd p hp
    simp only [List.map_cons, List.nodup_cons] at hnd
    have hqrest : ∀ w ∈ rest, w.name ≠ q.name := by
      intro w hw hww
      exact hnd.1 (hww ▸ List.mem_map_of_mem ParameterContainer.name hw)
    rcases List.mem_cons.mp hp with hpq | hpr
    · subst hpq
      cases hfb : findByName bag p.name with
      | none =>
        simp only [updateParamsLoop, hfb]
        rw [updateParamsLoop_other p.name rest bag b hqrest]
        try simp [hfb]
      | some loc =>
        by_cases hupd : loc.updatable = true
        · simp only [updateParamsLoop, hfb, if_pos hupd]
          rw [updateParamsLoop_other p.name rest _ true hqrest]
          rw [findByName_setParameter_self p bag]
          try simp [hupd]
        · simp only [updateParamsLoop, hfb, if_neg hupd]
          rw [updateParamsLoop_other p.name rest bag b hqrest]
          simp [hfb, hupd]
    · have hpname : p.name ≠ q.name := hqrest p hpr
      cases hfb : findByName bag q.name with
      | none =>
        simp only [updateParamsLoop, hfb]
        exact ih bag b hnd.2 p hpr
      | some loc =>
        by_cases hupd : loc.updatable = true
        · simp only [updateParamsLoop, hfb, if_pos hupd]
          rw [ih _ true hnd.2 p hpr]
          rw [findByName_setParameter_other q p.name hpname bag]
        · simp only [updateParamsLoop, hfb, if_neg hupd]
          exact ih bag b hnd.2 p hpr

/-- C6 (amended): `updateInputParams` works purely by name — an incoming
parameter replaces the stored one wholesale (shape included, regardless of
structural-no-update equality) exactly when a parameter of that name exists
and is updatable; otherwise the stored parameter stands; names not mentioned
are untouched; no error is ever raised (the function is total). -/
theorem updateInputParams_replaces_by_name_when_updatable (u uin : Umrf)
    (hnodup : (uin.input_parameters.map ParameterContainer.name).Nodup) :
    (∀ p ∈ uin.input_parameters,
      findByName (u.updateInputParams uin).2.input_parameters p.name =
        match findByName u.input_parameters p.name with
        | none => none
        | some loc => if loc.updatable then some p else some loc) ∧
    (∀ n, (∀ p ∈ uin.input_parameters, p.name ≠ n) →
      findByName (u.updateInputParams uin).2.input_parameters n =
        findByName u.input_parameters n) := by
  constructor
  · intro p hp
    have := updateParamsLoop_main uin.input_parameters u.input_parameters false hnodup p hp
    simpa [Umrf.updateInputParams] using this
  · intro n hn
    have := updateParamsLoop_other n uin.input_parameters u.input_parameters false hn
    simpa [Umrf.updateInputParams] using this

/-- C6 (amended, witness): the shape-mismatched incoming "x" replaces the
stored updatable "x" wholesale. -/
theorem updateInputParams_replaces_by_name_when_updatable_witness :
    findByName (fixU6.updateInputParams fixU6in).2.input_parameters "x" = some fixPNew := by
  have h := (updateInputParams_replaces_by_name_when_updatable fixU6 fixU6in (by decide)).1
    fixPNew (by decide)
  simpa [fixU6, fixPOld, fixPNew, mkNode, findByName] using h

/-! ## The `isEqual` equivalence laws (C8) -/

theorem relEqb_iff (a b : Relation) : relEqb a b = true ↔ relKey a = relKey b := by
  simp [relEqb, relKey, Bool.and_eq_true, beq_iff_eq, Prod.ext_iff]

theorem relFound_iff (l : List Relation) (r : Relation) :
    relFound l r = true ↔ relKey r ∈ l.map relKey := by
  simp only [relFound, List.any_eq_true, relEqb_iff, List.mem_map]

/-- Two duplicate-free key lists of the same length with one-sided key
containment have the same keys. -/
theorem keyflip {α β : Type} [DecidableEq β] (f : α → β) (l1 l2 : List α)
    (h1 : (l1.map f).Nodup) (h2 : (l2.map f).Nodup) (hlen : l1.length = l2.length)
    (hsub : ∀ x ∈ l2, f x ∈ l1.map f) : ∀ y ∈ l1, f y ∈ l2.map f := by
  have hs : (l2.map f).toFinset ⊆ (l1.map f).toFinset := by
    intro b hb
    rw [List.mem_toFinset] at hb ⊢
    rcases List.mem_map.mp hb with ⟨x, hx, hfx⟩
    exact hfx ▸ hsub x hx
  have hcard : (l1.map f).toFinset.card ≤ (l2.map f).toFinset.card := by
    rw [List.toFinset_card_of_nodup h1, List.toFinset_card_of_nodup h2]
    simp [hlen]
  have heq : (l2.map f).toFinset = (l1.map f).toFinset :=
    Finset.eq_of_subset_of_card_le hs hcard
  intro y hy
  have hmem : f y ∈ (l1.map f).toFinset := List.mem_toFinset.mpr (List.mem_map_of_mem f hy)
  rw [← heq] at hmem
  exact List.mem_toFinset.mp hmem

theorem findByName_some_mem :
    ∀ {bag : ActionParameters} {n : String} {q : ParameterContainer},
      findByName bag n = some q → q ∈ bag ∧ q.name = n := by
  intro bag
  induction bag with
  | nil => intro n q h; simp [findByName] at h
  | cons p rest ih =>
    intro n q h
    by_cases hp : p.name = n
    · simp only [findByName, if_pos hp, Option.some.injEq] at h
      subst h
      exact ⟨List.mem_cons_self p rest, hp⟩
    · simp only [findByName, if_neg hp] at h
      obtain ⟨hm, hn⟩ := ih h
      exact ⟨List.mem_cons_of_mem p hm, hn⟩

theorem findByName_of_name_mem :
    ∀ {bag : ActionParameters} {n : String},
      n ∈ bag.map ParameterContainer.name → ∃ q, findByName bag n = some q := by
  intro bag
  induction bag with
  | nil => intro n h; simp at h
  | cons p rest ih =>
    intro n h
    by_cases hp : p.name = n
    · exact ⟨p, by simp [findByName, hp]⟩
    · simp only [List.map_cons, List.mem_cons] at h
      rcases h with h | h
      · exact absurd h.symm hp
      · obtain ⟨q, hq⟩ := ih h
        exact ⟨q, by simp [findByName, hp, hq]⟩

theorem mem_name_inj {bag : ActionParameters}
    (hnd : (bag.map ParameterContainer.name).Nodup) :
    ∀ {p q : ParameterContainer}, p ∈ bag → q ∈ bag → p.name = q.name → p = q := by
  induction bag with
  | nil => intro p q hp; simp at hp
  | cons w rest ih =>
    intro p q hp hq hname
    simp only [List.map_cons, List.nodup_cons] at hnd
    rcases List.mem_cons.mp hp with hp1 | hp1 <;> rcases List.mem_cons.mp hq with hq1 | hq1
    · rw [hp1, hq1]
    · subst hp1
      exact absurd (hname ▸ List.mem_map_of_mem ParameterContainer.name hq1) hnd.1
    · subst hq1
      exact absurd (hname ▸ List.mem_map_of_mem ParameterContainer.name hp1) hnd.1
    · exact ih hnd.2 hp1 hq1 hname

theorem isEqualNoData_iff (p q : ParameterContainer) :
    p.isEqualNoData q = true ↔
      p.name = q.name ∧ p.type = q.type ∧ p.required = q.required ∧
      p.updatable = q.updatable ∧ p.allowed_data = q.allowed_data := by
  simp [ParameterContainer.isEqualNoData, Bool.and_eq_true, beq_iff_eq, and_assoc]

theorem isEqualNoDataNoUpdate_iff (p q : ParameterContainer) :
    p.isEqualNoDataNoUpdate q = true ↔
      p.name = q.name ∧ p.type = q.type ∧ p.required = q.required ∧
      p.allowed_data = q.allowed_data := by
  simp [ParameterContainer.isEqualNoDataNoUpdate, Bool.and_eq_true, beq_iff_eq, and_assoc]

theorem pcCheck_refl (cu : Bool) (p : ParameterContainer) : pcCheck cu p p = true := by
  cases cu <;> simp [pcCheck, isEqualNoData_iff, isEqualNoDataNoUpdate_iff]

theorem pcCheck_symm (cu : Bool) {p q : ParameterContainer} (h : pcCheck cu p q = true) :
    pcCheck cu q p = true := by
  cases cu
  · simp only [pcCheck, Bool.false_eq_true, if_false, isEqualNoDataNoUpdate_iff] at h ⊢
    exact ⟨h.1.symm, h.2.1.symm, h.2.2.1.symm, h.2.2.2.symm⟩
  · simp only [pcCheck, if_true, isEqualNoData_iff] at h ⊢
    exact ⟨h.1.symm, h.2.1.symm, h.2.2.1.symm, h.2.2.2.1.symm, h.2.2.2.2.symm⟩

theorem pcCheck_trans (cu : Bool) {p q r : ParameterContainer}
    (h1 : pcCheck cu p q = true) (h2 : pcCheck cu q r = true) : pcCheck cu p r = true := by
  cases cu
  · simp only [pcCheck, Bool.false_eq_true, if_false, isEqualNoDataNoUpdate_iff] at h1 h2 ⊢
    exact ⟨h1.1.trans h2.1, h1.2.1.trans h2.2.1, h1.2.2.1.trans h2.2.2.1,
      h1.2.2.2.trans h2.2.2.2⟩
  · simp only [pcCheck, if_true, isEqualNoData_iff] at h1 h2 ⊢
    exact ⟨h1.1.trans h2.1, h1.2.1.trans h2.2.1, h1.2.2.1.trans h2.2.2.1,
      h1.2.2.2.1.trans h2.2.2.2.1, h1.2.2.2.2.trans h2.2.2.2.2⟩

theorem pcCheck_name (cu : Bool) {p q : ParameterContainer} (h : pcCheck cu p q = true) :
    p.name = q.name := by
  cases cu
  · simp only [pcCheck, Bool.false_eq_true, if_false, isEqualNoDataNoUpdate_iff] at h
    exact h.1
  · simp only [pcCheck, if_true, isEqualNoData_iff] at h
    exact h.1

theorem isEqualNoData_symm {p q : ParameterContainer} (h : p.isEqualNoData q = true) :
    q.isEqualNoData p = true := by
  have := pcCheck_symm true (p := p) (q := q)
  simpa [pcCheck] using this (by simpa [pcCheck] using h)

theorem isEqualNoData_trans {p q r : ParameterContainer} (h1 : p.isEqualNoData q = true)
    (h2 : q.isEqualNoData r = true) : p.isEqualNoData r = true := by
  have := pcCheck_trans true (p := p) (q := q) (r := r)
  simpa [pcCheck] using this (by simpa [pcCheck] using h1) (by simpa [pcCheck] using h2)

theorem findByName_self_of_nodup :
    ∀ {bag : ActionParameters}, (bag.map ParameterContainer.name).Nodup →
      ∀ {p : ParameterContainer}, p ∈ bag → findByName bag p.name = some p := by
  intro bag
  induction bag with
  | nil => intro _ p hp; simp at hp
  | cons w rest ih =>
    intro hnd p hp
    simp only [List.map_cons, List.nodup_cons] at hnd
    rcases List.mem_cons.mp hp with h1 | h1
    · subst h1; simp [findByName]
    · have hw : ¬ w.name = p.name := fun hh =>
        hnd.1 (hh ▸ List.mem_map_of_mem ParameterContainer.name h1)
      simp only [findByName, if_neg hw]
      exact ih hnd.2 h1

theorem bagCheck_iff (f : ParameterContainer → ParameterContainer → Bool)
    (bag : ActionParameters) (p : ParameterContainer) :
    bagCheck f bag p = true ↔ ∃ q, findByName bag p.name = some q ∧ f p q = true := by
  cases h : findByName bag p.name <;> simp [bagCheck, h]

theorem bagCheck_all_refl (f : ParameterContainer → ParameterContainer → Bool)
    (hrefl : ∀ p, f p p = true) (A : ActionParameters)
    (hA : (A.map ParameterContainer.name).Nodup) :
    ∀ p ∈ A, bagCheck f A p = true := fun p hp =>
  (bagCheck_iff f A p).mpr ⟨p, findByName_self_of_nodup hA hp, hrefl p⟩

theorem bagCheck_all_symm (f : ParameterContainer → ParameterContainer → Bool)
    (hsymm : ∀ {p q}, f p q = true → f q p = true)
    (hname : ∀ {p q}, f p q = true → p.name = q.name)
    (A B : ActionParameters) (hlen : A.length = B.length)
    (hA : (A.map ParameterContainer.name).Nodup)
    (hB : (B.map ParameterContainer.name).Nodup)
    (h : ∀ p ∈ A, bagCheck f B p = true) : ∀ q ∈ B, bagCheck f A q = true := by
  have hsub : ∀ p ∈ A, p.name ∈ B.map ParameterContainer.name := by
    intro p hp
    obtain ⟨q, hq, hfq⟩ := (bagCheck_iff f B p).mp (h p hp)
    obtain ⟨hqm, hqn⟩ := findByName_some_mem hq
    exact hqn ▸ List.mem_map_of_mem ParameterContainer.name hqm
  have hflip := keyflip ParameterContainer.name B A hB hA hlen.symm hsub
  intro q hq
  obtain ⟨p1, hp1⟩ := findByName_of_name_mem (hflip q hq)
  obtain ⟨hp1m, hp1n⟩ := findByName_some_mem hp1
  obtain ⟨q1, hq1, hfq1⟩ := (bagCheck_iff f B p1).mp (h p1 hp1m)
  rw [hp1n] at hq1
  obtain ⟨hq1m, hq1n⟩ := findByName_some_mem hq1
  have hq1q : q1 = q := mem_name_inj hB hq1m hq hq1n
  rw [hq1q] at hfq1
  exact (bagCheck_iff f A q).mpr ⟨p1, hp1, hsymm hfq1⟩

theorem bagCheck_all_trans (f : ParameterContainer → ParameterContainer → Bool)
    (htrans : ∀ {p q r}, f p q = true → f q r = true → f p r = true)
    (hname : ∀ {p q}, f p q = true → p.name = q.name)
    (A B C : ActionParameters)
    (h1 : ∀ p ∈ A, bagCheck f B p = true) (h2 : ∀ q ∈ B, bagCheck f C q = true) :
    ∀ p ∈ A, bagCheck f C p = true := by
  intro p hp
  obtain ⟨q, hq, hfq⟩ := (bagCheck_iff f B p).mp (h1 p hp)
  obtain ⟨hqm, hqn⟩ := findByName_some_mem hq
  obtain ⟨r, hr, hfr⟩ := (bagCheck_iff f C q).mp (h2 q hqm)
  rw [hqn] at hr
  exact (bagCheck_iff f C p).mpr ⟨r, hr, htrans hfq hfr⟩

theorem isEqualNoData_refl (p : ParameterContainer) : p.isEqualNoData p = true := by
  simp [isEqualNoData_iff]

theorem isEqualNoData_name {p q : ParameterContainer} (h : p.isEqualNoData q = true) :
    p.name = q.name := ((isEqualNoData_iff p q).mp h).1

theorem generalEq_iff (a b : Umrf) : a.generalEq b = true ↔
    a.name = b.name ∧ a.suffix = b.suffix ∧ a.ntn = b.ntn ∧ a.effect = b.effect := by
  simp [Umrf.generalEq, Bool.and_eq_true, beq_iff_eq, and_assoc]

theorem connEq_iff (a b : Umrf) : a.connEq b = true ↔
    a.children.length = b.children.length ∧ a.parents.length = b.parents.length ∧
    (∀ r ∈ b.parents, relKey r ∈ a.parents.map relKey) ∧
    (∀ r ∈ b.children, relKey r ∈ a.children.map relKey) := by
  simp [Umrf.connEq, Bool.and_eq_true, List.all_eq_true, relFound_iff, and_assoc]

theorem paramCheck_eq_bagCheck (cu : Bool) (bag : ActionParameters)
    (p : ParameterContainer) : paramCheck cu bag p = bagCheck (pcCheck cu) bag p := by
  cases h : findByName bag p.name <;> simp [paramCheck, bagCheck, pcCheck, h]

theorem outParamCheck_eq_bagCheck (bag : ActionParameters) (p : ParameterContainer) :
    outParamCheck bag p = bagCheck ParameterContainer.isEqualNoData bag p := by
  cases h : findByName bag p.name <;> simp [outParamCheck, bagCheck, h]

theorem paramsEq_iff (cu : Bool) (a b : Umrf) : Umrf.paramsEq cu a b = true ↔
    a.input_parameters.length = b.input_parameters.length ∧
    a.output_parameters.length = b.output_parameters.length ∧
    (∀ p ∈ a.input_parameters, bagCheck (pcCheck cu) b.input_parameters p = true) ∧
    (∀ p ∈ a.output_parameters,
      bagCheck ParameterContainer.isEqualNoData b.output_parameters p = true) := by
  simp [Umrf.paramsEq, Bool.and_eq_true, List.all_eq_true, getParameterCount,
    paramCheck_eq_bagCheck, outParamCheck_eq_bagCheck, and_assoc, beq_iff_eq]

theorem isEqual_split (cu : Bool) (a b : Umrf) : Umrf.isEqual a b cu = true ↔
    a.generalEq b = true ∧ a.connEq b = true ∧ Umrf.paramsEq cu a b = true := by
  simp [Umrf.isEqual, Bool.and_eq_true, and_assoc]

/-- C8 (amended): restricted to nodes whose parent/child relation lists are
duplicate-free (up to the identifying `(name, suffix)` key) and whose parameter
bags have unique names — which the C++ containers guarantee — `isEqual` is an
equivalence for both values of `check_updatable`: reflexive, symmetric and
transitive.  (Without the duplicate-freedom it is not symmetric, see the
counterexample.) -/
theorem isEqual_equivalence_on_wf (cu : Bool) (a b c : Umrf)
    (ha : a.wfKeys) (hb : b.wfKeys) (hc : c.wfKeys) :
    Umrf.isEqual a a cu = true ∧
    (Umrf.isEqual a b cu = true → Umrf.isEqual b a cu = true) ∧
    (Umrf.isEqual a b cu = true → Umrf.isEqual b c cu = true →
      Umrf.isEqual a c cu = true) := by
  obtain ⟨haP, haC, haI, haO⟩ := ha
  obtain ⟨hbP, hbC, hbI, hbO⟩ := hb
  obtain ⟨hcP, hcC, hcI, hcO⟩ := hc
  refine ⟨?_, ?_, ?_⟩
  · rw [isEqual_split, generalEq_iff, connEq_iff, paramsEq_iff]
    exact ⟨⟨rfl, rfl, rfl, rfl⟩,
      ⟨rfl, rfl, fun r hr => List.mem_map_of_mem relKey hr,
        fun r hr => List.mem_map_of_mem relKey hr⟩,
      rfl, rfl, bagCheck_all_refl _ (pcCheck_refl cu) _ haI,
      bagCheck_all_refl _ isEqualNoData_refl _ haO⟩
  · intro hab
    rw [isEqual_split, generalEq_iff, connEq_iff, paramsEq_iff] at hab
    rw [isEqual_split, generalEq_iff, connEq_iff, paramsEq_iff]
    obtain ⟨hg, hcn, hpm⟩ := hab
    refine ⟨⟨hg.1.symm, hg.2.1.symm, hg.2.2.1.symm, hg.2.2.2.symm⟩,
      ⟨hcn.1.symm, hcn.2.1.symm,
        keyflip relKey a.parents b.parents haP hbP hcn.2.1 hcn.2.2.1,
        keyflip relKey a.children b.children haC hbC hcn.1 hcn.2.2.2⟩,
      hpm.1.symm, hpm.2.1.symm, ?_, ?_⟩
    · exact bagCheck_all_symm _ (pcCheck_symm cu) (pcCheck_name cu)
        a.input_parameters b.input_parameters hpm.1 haI hbI hpm.2.2.1
    · exact bagCheck_all_symm _ isEqualNoData_symm isEqualNoData_name
        a.output_parameters b.output_parameters hpm.2.1 haO hbO hpm.2.2.2
  · intro hab hbc
    rw [isEqual_split, generalEq_iff, connEq_iff, paramsEq_iff] at hab hbc
    rw [isEqual_split, generalEq_iff, connEq_iff, paramsEq_iff]
    obtain ⟨hg1, hcn1, hpm1⟩ := hab
    obtain ⟨hg2, hcn2, hpm2⟩ := hbc
    refine ⟨⟨hg1.1.trans hg2.1, hg1.2.1.trans hg2.2.1, hg1.2.2.1.trans hg2.2.2.1,
        hg1.2.2.2.trans hg2.2.2.2⟩,
      ⟨hcn1.1.trans hcn2.1, hcn1.2.1.trans hcn2.2.1, ?_, ?_⟩,
      hpm1.1.trans hpm2.1, hpm1.2.1.trans hpm2.2.1, ?_, ?_⟩
    · intro r hr
      rcases List.mem_map.mp (hcn2.2.2.1 r hr) with ⟨s, hs, hks⟩
      exact hks ▸ hcn1.2.2.1 s hs
    · intro r hr
      rcases List.mem_map.mp (hcn2.2.2.2 r hr) with ⟨s, hs, hks⟩
      exact hks ▸ hcn1.2.2.2 s hs
    · exact bagCheck_all_trans (pcCheck cu) (pcCheck_trans cu) (pcCheck_name cu)
        a.input_parameters b.input_parameters c.input_parameters hpm1.2.2.1 hpm2.2.2.1
    · exact bagCheck_all_trans ParameterContainer.isEqualNoData isEqualNoData_trans
        isEqualNoData_name
        a.output_parameters b.output_parameters c.output_parameters hpm1.2.2.2 hpm2.2.2.2

/-- C8 (amended, witness): the node with the duplicate-free parent list
`[p, q]` satisfies all three equivalence laws at itself. -/
theorem isEqual_equivalence_on_wf_witness :
    Umrf.isEqual fixU8B fixU8B true = true ∧
    (Umrf.isEqual fixU8B fixU8B true = true → Umrf.isEqual fixU8B fixU8B true = true) ∧
    (Umrf.isEqual fixU8B fixU8B true = true → Umrf.isEqual fixU8B fixU8B true = true →
      Umrf.isEqual fixU8B fixU8B true = true) :=
  isEqual_equivalence_on_wf true fixU8B fixU8B fixU8B
    (by refine ⟨?_, ?_, ?_, ?_⟩ <;> decide)
    (by refine ⟨?_, ?_, ?_, ?_⟩ <;> decide)
    (by refine ⟨?_, ?_, ?_, ?_⟩ <;> decide)

/-! ## Activation soundness of `notifyFinished` (C1) -/

theorem handleInitPred_rpf {u : Umrf} (h : handleInitPred u = true) :
    u.requiredParentsFinished = true := by
  simp only [handleInitPred, Bool.and_eq_true] at h
  exact h.1.2

theorem initIdOk_of_notInit {g : UmrfGraph} {init_req : Bool} {ids : List Nat}
    {e : TemotoErrorStack} {tmp : HandleMap} {rb : List Nat}
    (h : createHandles g init_req ids = .notInitialized e tmp rb) :
    ∀ id ∈ rb, initIdOk g id := by
  have hs := createHandlesGo_initIds_sound g init_req ids [] [] (by simp)
  rw [createHandles] at h
  rw [h] at hs
  exact hs

theorem initIdOk_of_ok {g : UmrfGraph} {init_req : Bool} {ids : List Nat}
    {tmp : HandleMap} {init : List Nat}
    (h : createHandles g init_req ids = .ok tmp init) :
    ∀ id ∈ init, initIdOk g id := by
  have hs := createHandlesGo_initIds_sound g init_req ids [] [] (by simp)
  rw [createHandles] at h
  rw [h] at hs
  exact hs

theorem executeById_graph_umrfs (env : ExecEnv) (ids : List Nat) (g : UmrfGraph)
    (handles : HandleMap) (ir : Bool) :
    (executeById env ids g handles ir).graph.umrfs = g.umrfs := by
  unfold executeById
  cases hc : createHandles g ir ids with
  | missingUmrf e rb => rfl
  | notInitialized e tmp rb =>
    simp only [eidAfterCreate]
    exact rollbackLoop_umrfs rb handles g []
  | ok tmp init =>
    simp only [eidAfterCreate]
    unfold eidInstPhase
    have hiu := instantiateLoop_umrfs env init g
    cases hi : instantiateLoop env init g with
    | mk oe g1 =>
      rw [hi] at hiu
      cases oe with
      | some e =>
        simp only [eidInstDispatch]
        rw [rollbackLoop_umrfs]
        exact hiu
      | none =>
        simp only [eidInstDispatch]
        unfold eidExecPhase
        have heu := executeLoop_graph_umrfs env init (aInsertAll handles tmp) g1
        cases he : executeLoop env init (aInsertAll handles tmp) g1 with
        | mk oe2 hg2 =>
          rw [he] at heu
          obtain ⟨h2, g2⟩ := hg2
          cases oe2 with
          | some e2 =>
            simp only [eidExecDispatch]
            rw [rollbackLoop_umrfs]
            exact heu.trans hiu
          | none =>
            simp only [eidExecDispatch]
            exact heu.trans hiu

theorem executeById_nodeState_change (env : ExecEnv) (ids : List Nat) (g : UmrfGraph)
    (handles : HandleMap) (ir : Bool) (c : Nat)
    (hne : (executeById env ids g handles ir).graph.nodeState c ≠ g.nodeState c) :
    initIdOk g c := by
  unfold executeById at hne
  cases hc : createHandles g ir ids with
  | missingUmrf e rb =>
    rw [hc] at hne
    exact absurd rfl hne
  | notInitialized e tmp rb =>
    rw [hc] at hne
    simp only [eidAfterCreate] at hne
    by_cases hm : c ∈ rb
    · exact initIdOk_of_notInit hc c hm
    · exact absurd (rollbackLoop_nodeState_other rb handles g [] c hm) hne
  | ok tmp init =>
    rw [hc] at hne
    simp only [eidAfterCreate] at hne
    by_cases hm : c ∈ init
    · exact initIdOk_of_ok hc c hm
    · exfalso
      apply hne
      unfold eidInstPhase
      have hin := instantiateLoop_nodeState_other env init g c hm
      cases hi : instantiateLoop env init g with
      | mk oe g1 =>
        rw [hi] at hin
        cases oe with
        | some e =>
          simp only [eidInstDispatch]
          rw [rollbackLoop_nodeState_other init _ g1 [] c hm]
          exact hin
        | none =>
          simp only [eidInstDispatch]
          unfold eidExecPhase
          have hex := executeLoop_nodeState_other env init (aInsertAll handles tmp) g1 c hm
          cases he : executeLoop env init (aInsertAll handles tmp) g1 with
          | mk oe2 hg2 =>
            rw [he] at hex
            obtain ⟨h2, g2⟩ := hg2
            cases oe2 with
            | some e2 =>
              simp only [eidExecDispatch]
              rw [rollbackLoop_nodeState_other init h2 g2 [] c hm]
              exact hex.trans hin
            | none =>
              simp only [eidExecDispatch]
              exact hex.trans hin

theorem executeById_activation_sound (env : ExecEnv) (ids : List Nat) (g : UmrfGraph)
    (handles : HandleMap) (ir : Bool) (c : Nat)
    (hne : (executeById env ids g handles ir).graph.nodeState c ≠ g.nodeState c) :
    ∃ u, (executeById env ids g handles ir).graph.getUmrfOf c = some u ∧
      u.requiredParentsFinished = true := by
  obtain ⟨u, hu, hpred⟩ := executeById_nodeState_change env ids g handles ir c hne
  refine ⟨u, ?_, handleInitPred_rpf hpred⟩
  rw [getUmrfOf_congr (executeById_graph_umrfs env ids g handles ir) c]
  exact hu

theorem setUmrf_node_states (g : UmrfGraph) (id : Nat) (u : Umrf) :
    (g.setUmrf id u).node_states = g.node_states := rfl

theorem updateChild_node_states (g : UmrfGraph) (pid c : Nat) (ps : ActionParameters) :
    (updateChild g pid c ps).2.node_states = g.node_states := by
  unfold updateChild
  split
  · rfl
  · split
    · rfl
    · split <;> rfl


theorem updateChildren_node_states (pid : Nat) (ps : ActionParameters) :
    ∀ (cs : List Nat) (g : UmrfGraph),
      (updateChildren g pid ps cs).2.node_states = g.node_states := by
  intro cs
  induction cs with
  | nil => intro g; rfl
  | cons c rest ih =>
    intro g
    cases hu : updateChild g pid c ps with
    | mk oer g1 =>
      have h1 : g1.node_states = g.node_states := by
        have := updateChild_node_states g pid c ps
        rw [hu] at this
        exact this
      cases oer with
      | some er => simpa [updateChildren, hu] using h1
      | none =>
        simp only [updateChildren, hu]
        rw [ih g1, h1]

theorem nodeState_congr {g1 g2 : UmrfGraph} (h : g1.node_states = g2.node_states)
    (c : Nat) : g1.nodeState c = g2.nodeState c := by
  simp [UmrfGraph.nodeState, h]

theorem processGraphEntry_sound (env : ExecEnv) (pid : Nat) (ps : ActionParameters)
    (h : HandleMap) (e : String × UmrfGraph) (c : Nat)
    (hne : ((processGraphEntry env pid ps h e).2.2).2.nodeState c ≠ e.2.nodeState c) :
    ∃ u, ((processGraphEntry env pid ps h e).2.2).2.getUmrfOf c = some u ∧
      u.requiredParentsFinished = true := by
  unfold processGraphEntry at hne ⊢
  by_cases hskip : e.2.checkState ≠ GraphState.ACTIVE ∨ (e.2.getChildrenOf pid).isEmpty = true
  · rw [if_pos hskip] at hne
    exact absurd rfl hne
  · rw [if_neg hskip] at hne
    rw [if_neg hskip]
    cases hu : updateChildren e.2 pid ps (e.2.getChildrenOf pid) with
    | mk oer g1 =>
      rw [hu] at hne
      have hns : g1.node_states = e.2.node_states := by
        have := updateChildren_node_states pid ps (e.2.getChildrenOf pid) e.2
        rw [hu] at this
        exact this
      cases oer with
      | some er =>
        exact absurd (nodeState_congr hns c) hne
      | none =>
        have hne2 : (executeById env (g1.getChildrenOf pid) g1 h false).graph.nodeState c ≠
            g1.nodeState c := by
          rw [nodeState_congr hns c]
          exact hne
        exact executeById_activation_sound env (g1.getChildrenOf pid) g1 h false c hne2

theorem notifyLoop_sound (env : ExecEnv) (pid : Nat) (ps : ActionParameters) :
    ∀ (gs : List (String × UmrfGraph)) (h : HandleMap),
      List.Forall₂ (fun e e2 => ∀ c : Nat,
          e2.2.nodeState c ≠ e.2.nodeState c →
          ∃ u, e2.2.getUmrfOf c = some u ∧ u.requiredParentsFinished = true)
        gs (notifyLoop env pid ps h gs).2.2 := by
  intro gs
  induction gs with
  | nil => intro h; simp [notifyLoop]
  | cons e rest ih =>
    intro h
    cases hp : processGraphEntry env pid ps h e with
    | mk oer r2 =>
      obtain ⟨h1, e1⟩ := r2
      have hprop : ∀ c : Nat, e1.2.nodeState c ≠ e.2.nodeState c →
          ∃ u, e1.2.getUmrfOf c = some u ∧ u.requiredParentsFinished = true := by
        intro c hne
        have := processGraphEntry_sound env pid ps h e c
        rw [hp] at this
        exact this hne
      cases oer with
      | some er =>
        simp only [notifyLoop, hp]
        refine List.Forall₂.cons hprop ?_
        rw [List.forall₂_same]
        intro x _ c hne
        exact absurd rfl hne
      | none =>
        simp only [notifyLoop, hp]
        exact List.Forall₂.cons hprop (ih h1)

/-- C1: a `notifyFinished` call changes a node's runtime state (in particular,
activates a pending child) only when, in the resulting graph, the node's
`required_parents_finished()` predicate holds — every parent relation carrying
`required == true` has `received == true`.  Contrapositively, a child with an
unfired required parent is left exactly as it was (it stays pending). -/
theorem notifyFinished_activation_requires_required_parents (env : ExecEnv)
    (st : ExecutorState) (parent_id : Nat) (ps : ActionParameters) :
    List.Forall₂ (fun e e2 => ∀ c : Nat,
        e2.2.nodeState c ≠ e.2.nodeState c →
        ∃ u, e2.2.getUmrfOf c = some u ∧ u.requiredParentsFinished = true)
      st.graphs (notifyFinished env st parent_id ps).2.graphs := by
  have h := notifyLoop_sound env parent_id ps st.graphs st.handles
  simpa [notifyFinished] using h

/-- C1 (witness): in the diamond fixture (a finished, c running, b requiring
a and c, d requiring only a), the call activates d (all required parents
received) and leaves b pending (c has not fired), and the invariant theorem
applies to the state. -/
theorem notifyFinished_activation_requires_required_parents_witness :
    List.Forall₂ (fun e e2 => ∀ c : Nat,
        e2.2.nodeState c ≠ e.2.nodeState c →
        ∃ u, e2.2.getUmrfOf c = some u ∧ u.requiredParentsFinished = true)
      fixStD1.graphs (notifyFinished fixEnv0 fixStD1 0 []).2.graphs ∧
    ((notifyFinished fixEnv0 fixStD1 0 []).2.graphs.map (fun e => e.2.nodeState 3)) =
      [some .ACTIVE] ∧
    ((notifyFinished fixEnv0 fixStD1 0 []).2.graphs.map (fun e => e.2.nodeState 2)) =
      [some .NOT_STARTED] :=
  ⟨notifyFinished_activation_requires_required_parents fixEnv0 fixStD1 0 [],
    by decide, by decide⟩

end Temoto
